import Mathlib

/-!
# Verification of the bledger bcoin layer

Shallow embedding of `lib/bcoin.js` (`LedgerBcoin`: `signTransaction`,
`_signTransaction`, `signInput`) and `lib/txinput.js` (`LedgerTXInput`),
together with the bcoin script predicates the code calls
(`isScripthash`, `isWitnessScripthash`, `getWitnessPubkeyhash`,
`fromPubkeyhash`, `getRedeem`).

Buffers are modelled as `List Nat` (byte lists), JS object keys as pairs,
JS `null`/`undefined` as `Option`, thrown errors as `Except String`.
Script-sig and witness vectors are modelled directly as stacks of items
(bcoin's `toStack`/`fromStack` round-trip).  External collaborators
(the `bcoin` primitives `MTX.scriptInput` / `MTX.signVector`, the
`bcrypto` key conversion) and the ledger protocol driver (`this.ledger`)
are parameters of the embedding (`Collab`, `Oracle`); every device call
is recorded in an event trace.
-/

/-- Error values: JS thrown `Error` / `LedgerError` / `AssertionError`
messages. -/
abbrev Err := String

/-- Raw script bytes. -/
abbrev Script := List Nat

/-- One stack item (a byte buffer). -/
abbrev Item := List Nat

/-- A script-sig or witness vector, modelled as its stack of items. -/
abbrev Stack := List Item

/-- Outpoint / outpoint cache key: (txid, output index).
JS uses the string `Outpoint.toKey()`; only key equality matters. -/
abbrev POKey := Nat × Nat

/-- bcoin `Network`; only passed through to `KeyRing.fromPublic`. -/
abbrev Network := Nat

/-- `Script.hashType.ALL` in bcoin. -/
def hashTypeALL : Nat := 1

/-- bcoin `Script#isScripthash`: `OP_HASH160 <20-byte hash> OP_EQUAL`. -/
def isScripthash (s : Script) : Bool :=
  s.length == 23 && s.get? 0 == some 0xa9 && s.get? 1 == some 0x14
    && s.get? 22 == some 0x87

/-- bcoin `Script#isWitnessScripthash`: version-0 program with 32-byte data. -/
def isWitnessScripthash (s : Script) : Bool :=
  s.length == 34 && s.get? 0 == some 0x00 && s.get? 1 == some 0x20

/-- bcoin `Script#getWitnessPubkeyhash`: the 20-byte data of a version-0
witness program, else `null`. -/
def getWitnessPubkeyhash (s : Script) : Option (List Nat) :=
  if s.length == 22 && s.get? 0 == some 0x00 && s.get? 1 == some 0x14 then
    some (s.drop 2)
  else
    none

/-- bcoin `Script.fromPubkeyhash`: standard P2PKH locking script. -/
def fromPubkeyhash (h : List Nat) : Script :=
  [0x76, 0xa9, 0x14] ++ h ++ [0x88, 0xac]

/-- bcoin `Script#getRedeem` / `Witness#getRedeem` on a vector modelled as a
stack: the trailing data push interpreted as a script. -/
def getRedeemStack (v : Stack) : Option Script :=
  v.getLast?

/-- One output of a (previous) transaction; only its locking script is read. -/
structure TXOutput where
  script : Script
  deriving DecidableEq, Repr

/-- A fully-parsed previous transaction (`bcoin.TX`): its txid and outputs.
Inputs of the previous transaction are only streamed to the device, which the
`Oracle` abstracts. -/
structure TXrep where
  hash : Nat
  outputs : List TXOutput
  deriving DecidableEq, Repr

/-- bcoin `Coin.fromTX(tx, index, height)`; only the script is read by the
signing path. -/
structure Coin where
  script : Script
  deriving DecidableEq, Repr

/-- bcoin `KeyRing.fromPublic` plus the `script`/`witness` fields the
descriptor sets on it. -/
structure KeyRing where
  publicKey : List Nat
  script : Option Script
  witness : Bool
  network : Network
  deriving DecidableEq, Repr

/-- `LedgerTXInput` (lib/txinput.js): required fields plus the lazily
computed, invalidatable caches (`_ring`, `_coin`, `_key`, `_prev`,
`_outpoint`).  JS initialises `_key` to `''` and leaves `_outpoint`
undefined; both "unset" states are `none`. -/
structure LedgerTXInput where
  path : List Nat
  tx : TXrep
  index : Nat
  witness : Bool
  redeem : Option Script
  type : Nat
  publicKey : Option (List Nat)
  ringCache : Option KeyRing
  coinCache : Option Coin
  keyCache : Option POKey
  prevCache : Option Script
  outpointCache : Option POKey
  deriving DecidableEq, Repr

namespace LedgerTXInput

/-- `getOutpoint()`: the cached outpoint, else `Outpoint.fromTX(tx, index)`. -/
def getOutpointVal (li : LedgerTXInput) : POKey :=
  li.outpointCache.getD (li.tx.hash, li.index)

/-- `toKey()`: the cached key, else `getOutpoint().toKey()`. -/
def toKeyVal (li : LedgerTXInput) : POKey :=
  li.keyCache.getD li.getOutpointVal

/-- `getPrev()`: the cached script, else `tx.outputs[index].script`.
An out-of-range index (a JS `TypeError`) is modelled as the empty script;
no claim exercises it. -/
def getPrevVal (li : LedgerTXInput) : Script :=
  li.prevCache.getD (((li.tx.outputs.get? li.index).map TXOutput.script).getD [])

/-- `getCoin()`: the cached coin, else `Coin.fromTX(tx, index, 0)`. -/
def getCoinVal (li : LedgerTXInput) : Coin :=
  li.coinCache.getD
    { script := ((li.tx.outputs.get? li.index).map TXOutput.script).getD [] }

/-- `getRing(network)`: throws `LedgerError` when no public key is set;
otherwise the cached ring, else `KeyRing.fromPublic(publicKey, network)`
with the descriptor's redeem script and witness flag applied. -/
def getRingE (li : LedgerTXInput) (network : Network) : Except Err KeyRing :=
  match li.publicKey with
  | none => .error "Cannot return ring without public key"
  | some pk =>
    .ok (li.ringCache.getD
      { publicKey := pk, script := li.redeem, witness := li.witness,
        network := network })

/-- `refresh()` (lib/txinput.js lines 304-310): clear the five caches. -/
def refresh (li : LedgerTXInput) : LedgerTXInput :=
  { li with coinCache := none, ringCache := none, keyCache := none,
            prevCache := none, outpointCache := none }

end LedgerTXInput

/-- The `options` object accepted by `LedgerTXInput.fromOptions`; absent JS
properties are `none`.  A string `path` arrives already parsed (the
`util.parsePath` helper is outside the embedded sources), a Buffer `tx`
already deserialized. -/
structure TXInputOptions where
  path : Option (List Nat) := none
  tx : Option TXrep := none
  index : Option Int := none
  type : Option Nat := none
  redeem : Option Script := none
  publicKey : Option (List Nat) := none
  witness : Option Bool := none

/-- `isU32(value)`: `(value >>> 0) === value` on a JS number. -/
def isU32 (v : Int) : Bool :=
  0 ≤ v && v < 4294967296

/-- `LedgerTXInput.fromOptions` (lib/txinput.js lines 171-216), with the
constructor defaults of lines 148-164.  Note the source's sigHash check is
`assert(options.type !== Script.hashType.ALL, 'Ledger only supports
SIGHASH_ALL')`: it throws exactly when `options.type` equals
`SIGHASH_ALL` and accepts every other value. -/
def fromOptions (o : TXInputOptions) : Except Err LedgerTXInput :=
  match o.path with
  | none => .error "Path is required."
  | some path =>
    match o.tx with
    | none => .error "Tx is required."
    | some tx =>
      match o.index with
      | none => .error "Output index is required."
      | some index =>
        if !isU32 index then .error "Output index must be a uint32."
        else
          match (match o.type with
                 | none => Except.ok hashTypeALL
                 | some t =>
                   if t == hashTypeALL then
                     Except.error "Ledger only supports SIGHASH_ALL"
                   else Except.ok t : Except Err Nat) with
          | .error e => .error e
          | .ok ty =>
            .ok { path := path, tx := tx, index := index.toNat,
                  witness := o.witness.getD false,
                  redeem := o.redeem,
                  type := ty,
                  publicKey := o.publicKey,
                  ringCache := none, coinCache := none, keyCache := none,
                  prevCache := none, outpointCache := none }

/-- One input of the transaction being signed: its prevout key and its
script-sig / witness vectors (as stacks). -/
structure TXInput where
  prevout : POKey
  script : Stack
  witness : Stack
  deriving DecidableEq, Repr

/-- The mutable transaction (`bcoin.MTX`) being signed. -/
structure MTXrep where
  inputs : List TXInput
  outputs : List TXOutput
  deriving DecidableEq, Repr

/-- Replace input `idx`'s vectors (bcoin `scriptInput` templating and
`fromStack` write back both mutate only that input's vectors). -/
def setVecs (tx : MTXrep) (idx : Nat) (sv wv : Stack) : MTXrep :=
  match tx.inputs.get? idx with
  | none => tx
  | some i =>
    { tx with inputs := tx.inputs.set idx { i with script := sv, witness := wv } }

/-- Write stack `st` to input `idx`'s script-sig (`vecWit = false`) or
witness (`vecWit = true`) vector: `vector.fromStack(result)`. -/
def writeVec (tx : MTXrep) (idx : Nat) (vecWit : Bool) (st : Stack) : MTXrep :=
  match tx.inputs.get? idx with
  | none => tx
  | some i =>
    let i' := if vecWit then { i with witness := st } else { i with script := st }
    { tx with inputs := tx.inputs.set idx i' }

/-- Read input `idx`'s script-sig or witness stack. -/
def readVec (tx : MTXrep) (idx : Nat) (vecWit : Bool) : Stack :=
  (tx.inputs.get? idx).elim [] (fun i => if vecWit then i.witness else i.script)

/-- A device call made through the protocol driver (`this.ledger`), with the
arguments the claims talk about. -/
inductive Event where
  | getPublicKey (path : List Nat)
  | getTrustedInput (txhash : Nat) (index : Nat)
  | hashTransactionStart (firstRound : Bool) (segwitAware : Bool)
  | hashOutputFinalize
  | hashTransactionStartNullify (inputKey : POKey) (firstRound : Bool)
      (witness : Bool)
  | hashTransactionStartSegwit (inputKey : POKey)
  | hashSign (path : List Nat) (sigType : Nat)
  deriving DecidableEq, Repr

/-- Trusted-input cache: JS object keyed by outpoint key. -/
abbrev TIMap := List (POKey × List Nat)

/-- JS object property assignment `m[k] = v` (overwrite or append). -/
def setKey {β : Type} : List (POKey × β) → POKey → β → List (POKey × β)
  | [], k, v => [(k, v)]
  | (k', v') :: t, k, v =>
    if k' = k then (k, v) :: t else (k', v') :: setKey t k v

/-- JS object property read `m[k]` (`undefined` = `none`). -/
def lookupKey {β : Type} : List (POKey × β) → POKey → Option β
  | [], _ => none
  | (k', v') :: t, k => if k' = k then some v' else lookupKey t k

/-- The ledger protocol driver (`this.ledger`, lib/ledger.js): each operation
is a fallible device exchange.  Its internals are outside the embedded
sources; runs are quantified over all drivers. -/
structure Oracle where
  getPublicKey : List Nat → Except Err (List Nat)
  getTrustedInput : TXrep → Nat → Except Err (List Nat)
  hashTransactionStart : MTXrep → TIMap → Bool → Bool → Except Err Unit
  hashTransactionStartNullify :
    MTXrep → POKey → Script → TIMap → Bool → Bool → Except Err Unit
  hashOutputFinalize : MTXrep → Except Err Unit
  hashTransactionStartSegwit : MTXrep → POKey → Script → Except Err Unit
  hashSign : MTXrep → List Nat → Nat → Except Err (List Nat)

/-- The bcoin/bcrypto primitives collaborator.  `scriptInput` yields the
templated script-sig and witness stacks for the input (or `null` when the
input cannot be templated); `signVector` folds a signature into a templated
stack (or `null` when the template does not accept it). -/
structure Collab where
  publicKeyConvert : List Nat → List Nat
  scriptInput : MTXrep → Nat → Coin → KeyRing → Option (Stack × Stack)
  signVector : Script → Stack → List Nat → KeyRing → Option Stack

/-- Mutable state of one `_signTransaction` run: the transaction being
signed and the instance's `signingTX` flag. -/
structure St where
  tx : MTXrep
  signingTX : Bool
  deriving DecidableEq, Repr

/-- Computation of the orchestrator: state passing, JS exceptions, and the
trace of device calls (the trace survives a thrown error). -/
def M (α : Type) : Type :=
  St → Except Err α × St × List Event

namespace M

def pureM {α : Type} (a : α) : M α := fun s => (.ok a, s, [])

def bind {α β : Type} (x : M α) (f : α → M β) : M β := fun s =>
  match x s with
  | (.error e, s1, w) => (.error e, s1, w)
  | (.ok a, s1, w) =>
    match f a s1 with
    | (r, s2, w2) => (r, s2, w ++ w2)

def throw {α : Type} (e : Err) : M α := fun s => (.error e, s, [])

/-- Issue one device call: record the event, return the driver's response. -/
def devCall {α : Type} (ev : Event) (r : Except Err α) : M α :=
  fun s => (r, s, [ev])

def getTx : M MTXrep := fun s => (.ok s.tx, s, [])

def setTx (tx : MTXrep) : M Unit :=
  fun s => (.ok (), { s with tx := tx }, [])

def setSigning (b : Bool) : M Unit :=
  fun s => (.ok (), { s with signingTX := b }, [])

def liftExcept {α : Type} (r : Except Err α) : M α := fun s => (r, s, [])

def liftOption {α : Type} (o : Option α) (e : Err) : M α :=
  fun s => ((match o with | some a => .ok a | none => .error e), s, [])

end M

/-- The script classification block of `signInput` (lib/bcoin.js lines
224-261): from the previous output's script and the templated vectors,
compute the script presented to the device (`prev`), which vector receives
the result (`vecWit`), and the `redeem` / `witness` flags. -/
structure Classified where
  prev : Script
  vecWit : Bool
  redeem : Bool
  witness : Bool
  deriving DecidableEq, Repr

/-- Classification of one input, mirroring the source's two `if` blocks:
P2SH pulls the redeem script from the script-sig; a witness-scripthash
`prev` then pulls it from the witness and switches the vector; otherwise a
witness-pubkeyhash `prev` switches the vector with `redeem = false`. -/
def classifyInput (coinScript : Script) (sv wv : Stack) :
    Except Err Classified :=
  match (if isScripthash coinScript then
           match getRedeemStack sv with
           | none => Except.error "Redeem Script not found"
           | some r => Except.ok (⟨r, false, true, false⟩ : Classified)
         else Except.ok ⟨coinScript, false, false, false⟩ :
          Except Err Classified) with
  | .error e => .error e
  | .ok c1 =>
    if isWitnessScripthash c1.prev then
      match getRedeemStack wv with
      | none => .error "Input has not been templated."
      | some r => .ok ⟨r, true, true, true⟩
    else
      match getWitnessPubkeyhash c1.prev with
      | some wpkh => .ok ⟨fromPubkeyhash wpkh, true, false, true⟩
      | none => .ok c1

/-- The device passes of `signInput` (lib/bcoin.js lines 263-276): a
nullify pass plus an output-finalize for a non-witness input, a single
segwit pass for a witness input.  `tx1` is the templated transaction the
driver receives. -/
def passDevCalls (O : Oracle) (trusted : TIMap) (li : LedgerTXInput)
    (isNew : Bool) (cl : Classified) (tx1 : MTXrep) : M Unit :=
  if cl.witness = false then
    M.bind (M.devCall
        (.hashTransactionStartNullify li.toKeyVal isNew cl.witness)
        (O.hashTransactionStartNullify tx1 li.toKeyVal cl.prev trusted
          isNew cl.witness)) fun _ =>
    M.devCall .hashOutputFinalize (O.hashOutputFinalize tx1)
  else
    M.devCall (.hashTransactionStartSegwit li.toKeyVal)
      (O.hashTransactionStartSegwit tx1 li.toKeyVal cl.prev)

/-- The fold of `signInput` (lib/bcoin.js lines 284-308): in the redeem
case pop the trailing redeem item, fold via `tx.signVector`, re-append the
redeem item, and write the stack back; otherwise fold the whole stack.  A
refused fold returns `false` without touching the transaction.  A `pop()`
of an empty templated stack (JS `undefined`) is modelled as an empty
buffer; no claim exercises it. -/
def foldResult (C : Collab) (idx : Nat) (cl : Classified) (vec : Stack)
    (sig : List Nat) (ring : KeyRing) : M Bool :=
  if cl.redeem then
    match C.signVector cl.prev vec.dropLast sig ring with
    | none => M.pureM false
    | some result =>
      M.bind M.getTx fun t =>
      M.bind (M.setTx
        (writeVec t idx cl.vecWit (result ++ [vec.getLast?.getD []]))) fun _ =>
      M.pureM true
  else
    match C.signVector cl.prev vec sig ring with
    | none => M.pureM false
    | some result =>
      M.bind M.getTx fun t =>
      M.bind (M.setTx (writeVec t idx cl.vecWit result)) fun _ =>
      M.pureM true

/-- `LedgerBcoin#signInput` (lib/bcoin.js lines 213-309).  `index?` is
`txIndexByKey[pokey]` (`undefined` when the descriptor's outpoint is not an
input of `tx`); a missing or out-of-range index surfaces as the assertion
bcoin raises inside `tx.scriptInput`.  Returns `false` when `tx.signVector`
refuses the fold, `true` on success; throws on templating, classification
or device errors. -/
def signInputM (O : Oracle) (C : Collab) (network : Network)
    (trusted : TIMap) (li : LedgerTXInput) (index? : Option Nat)
    (isNew : Bool) : M Bool :=
  M.bind (M.liftExcept (li.getRingE network)) fun ring =>
  M.bind (M.liftOption index? "Input does not exist.") fun idx =>
  M.bind M.getTx fun tx0 =>
  M.bind (M.liftOption ((tx0.inputs.get? idx).map fun _ => ())
      "Input does not exist.") fun _ =>
  M.bind (M.liftOption (C.scriptInput tx0 idx li.getCoinVal ring)
      "Could not template input") fun svwv =>
  M.bind (M.setTx (setVecs tx0 idx svwv.1 svwv.2)) fun _ =>
  M.bind (M.liftExcept (classifyInput li.getCoinVal.script svwv.1 svwv.2))
    fun cl =>
  M.bind (passDevCalls O trusted li isNew cl (setVecs tx0 idx svwv.1 svwv.2))
    fun _ =>
  M.bind (M.devCall (.hashSign li.path li.type)
      (O.hashSign (setVecs tx0 idx svwv.1 svwv.2) li.path li.type)) fun sig =>
  foldResult C idx cl (if cl.vecWit then svwv.2 else svwv.1) sig ring

/-- The public-key loop of `_signTransaction` (lines 148-153): for every
descriptor without a public key, fetch one from the device and compress it
(`LedgerBcoin#getPublicKey` wraps the raw result through
`secp256k1.publicKeyConvert`). -/
def fillPublicKeys (O : Oracle) (C : Collab) :
    List LedgerTXInput → M (List LedgerTXInput)
  | [] => M.pureM []
  | li :: rest =>
    M.bind
      (match li.publicKey with
       | some _ => M.pureM li
       | none =>
         M.bind (M.devCall (.getPublicKey li.path) (O.getPublicKey li.path))
           fun raw =>
           M.pureM { li with publicKey := some (C.publicKeyConvert raw) })
      fun li' =>
    M.bind (fillPublicKeys O C rest) fun rest' =>
    M.pureM (li' :: rest')

/-- The trusted-input loop of `_signTransaction` (lines 155-169): witness
descriptors set `hasWitness` and are skipped; descriptors with an explicit
redeem script are skipped; every other descriptor fetches a trusted input
and caches it under its outpoint key. -/
def collectTrusted (O : Oracle) (m : TIMap) (hw : Bool) :
    List LedgerTXInput → M (TIMap × Bool)
  | [] => M.pureM (m, hw)
  | li :: rest =>
    if li.witness then collectTrusted O m true rest
    else if li.redeem.isSome then collectTrusted O m hw rest
    else
      M.bind (M.devCall (.getTrustedInput li.tx.hash li.index)
          (O.getTrustedInput li.tx li.index)) fun ti =>
      collectTrusted O (setKey m li.toKeyVal ti) hw rest

/-- The `txIndexByKey` map of `_signTransaction` (lines 172-176). -/
def idxMapOf (tx : MTXrep) : List (POKey × Nat) :=
  (List.range tx.inputs.length).foldl
    (fun m i => (tx.inputs.get? i).elim m (fun inp => setKey m inp.prevout i))
    []

/-- The per-input loop of `_signTransaction` (lines 188-194): sign each
descriptor in order, discarding `signInput`'s boolean result; `newtx` is
false from the second iteration on. -/
def signLoop (O : Oracle) (C : Collab) (network : Network) (trusted : TIMap)
    (idxMap : List (POKey × Nat)) : Bool → List LedgerTXInput → M Unit
  | _, [] => M.pureM ()
  | newtx, li :: rest =>
    M.bind (signInputM O C network trusted li (lookupKey idxMap li.toKeyVal)
        newtx) fun _ =>
    signLoop O C network trusted idxMap false rest

/-- `LedgerBcoin#_signTransaction` (lib/bcoin.js lines 137-199).  The
`MTX.isMTX` assertion is discharged by typing (`tx : MTXrep`).  When a
witness descriptor exists, one shared `hashTransactionStart(tx, {}, true,
true)` + `hashOutputFinalize` priming pass runs before the loop and
`newtx` drops to `false`. -/
def _signTransactionM (O : Oracle) (C : Collab) (network : Network)
    (inputs0 : List LedgerTXInput) : M MTXrep :=
  M.bind (M.setSigning true) fun _ =>
  M.bind (fillPublicKeys O C inputs0) fun inputs1 =>
  M.bind (collectTrusted O [] false inputs1) fun mhw =>
  M.bind M.getTx fun tx0 =>
  let idxMap := idxMapOf tx0
  M.bind
    (if mhw.2 then
      M.bind (M.devCall (.hashTransactionStart true true)
          (O.hashTransactionStart tx0 [] true true)) fun _ =>
        M.devCall .hashOutputFinalize (O.hashOutputFinalize tx0)
    else M.pureM ()) fun _ =>
  M.bind (signLoop O C network mhw.1 idxMap (!mhw.2) inputs1) fun _ =>
  M.bind (M.setSigning false) fun _ =>
  M.getTx

/-- Cross-call instance state of `LedgerBcoin`: the `signingTX` flag and
whether `txlock` is currently held. -/
structure AppState where
  signingTX : Bool
  locked : Bool
  deriving DecidableEq, Repr

/-- `LedgerBcoin#signTransaction` (lib/bcoin.js lines 117-125): acquire
`txlock`, run `_signTransaction`, and release the lock in a `finally`
block on both the return and the throw path. -/
def signTransaction (O : Oracle) (C : Collab) (network : Network)
    (tx : MTXrep) (inputs : List LedgerTXInput) (app : AppState) :
    Except Err MTXrep × AppState × List Event :=
  let app1 : AppState := { app with locked := true }
  match _signTransactionM O C network inputs
      { tx := tx, signingTX := app1.signingTX } with
  | (r, s1, w) => (r, { signingTX := s1.signingTX, locked := false }, w)

/-- Event classifiers for trace statements. -/
def isPubEv : Event → Bool
  | .getPublicKey _ => true
  | _ => false

def isTrustedEv : Event → Bool
  | .getTrustedInput _ _ => true
  | _ => false

def isStartEv : Event → Bool
  | .hashTransactionStart _ _ => true
  | _ => false

def isFinalizeEv : Event → Bool
  | .hashOutputFinalize => true
  | _ => false

/-- A per-input hashing pass: a nullify or a segwit start. -/
def isPassEv : Event → Bool
  | .hashTransactionStartNullify _ _ _ => true
  | .hashTransactionStartSegwit _ => true
  | _ => false

/-- The `firstRound` flags of the `hashTransactionStartNullify` calls of a
trace, in order. -/
def nullifyRounds (w : List Event) : List Bool :=
  w.filterMap fun e =>
    match e with
    | .hashTransactionStartNullify _ fr _ => some fr
    | _ => none

/-- Events kept by the C5 statement: the shared priming pass and the
per-input passes. -/
def primingView (e : Event) : Bool :=
  isStartEv e || isFinalizeEv e || isPassEv e

/- Concrete data for witnesses and counterexamples. -/

def pk0 : List Nat := [3, 1, 2]

def p2pkhScript : Script := fromPubkeyhash (List.replicate 20 5)

def wpkhScript : Script := [0x00, 0x14] ++ List.replicate 20 9

def p2shScript : Script := [0xa9, 0x14] ++ List.replicate 20 7 ++ [0x87]

def redeemBytes : List Nat := [81, 81]

def prevTxPlain : TXrep := { hash := 100, outputs := [{ script := p2pkhScript }] }

def prevTxWit : TXrep := { hash := 200, outputs := [{ script := wpkhScript }] }

def prevTxP2SH : TXrep := { hash := 300, outputs := [{ script := p2shScript }] }

def liPlain : LedgerTXInput :=
  { path := [44, 0, 0, 0, 0], tx := prevTxPlain, index := 0, witness := false,
    redeem := none, type := hashTypeALL, publicKey := some pk0,
    ringCache := none, coinCache := none, keyCache := none,
    prevCache := none, outpointCache := none }

def liWit : LedgerTXInput :=
  { path := [44, 0, 0, 0, 1], tx := prevTxWit, index := 0, witness := true,
    redeem := none, type := hashTypeALL, publicKey := some pk0,
    ringCache := none, coinCache := none, keyCache := none,
    prevCache := none, outpointCache := none }

def liP2SH : LedgerTXInput :=
  { path := [44, 0, 0, 0, 2], tx := prevTxP2SH, index := 0, witness := false,
    redeem := some redeemBytes, type := hashTypeALL, publicKey := some pk0,
    ringCache := none, coinCache := none, keyCache := none,
    prevCache := none, outpointCache := none }

def mtxPlain : MTXrep :=
  { inputs := [{ prevout := (100, 0), script := [], witness := [] }],
    outputs := [{ script := [106] }] }

def mtxMixed : MTXrep :=
  { inputs := [{ prevout := (100, 0), script := [], witness := [] },
               { prevout := (200, 0), script := [], witness := [] }],
    outputs := [{ script := [106] }] }

def mtxP2SH : MTXrep :=
  { inputs := [{ prevout := (300, 0), script := [], witness := [] }],
    outputs := [{ script := [106] }] }

/-- A driver whose every exchange succeeds with fixed data. -/
def okOracle : Oracle :=
  { getPublicKey := fun _ => .ok [4, 8, 8],
    getTrustedInput := fun _ _ => .ok [9, 9],
    hashTransactionStart := fun _ _ _ _ => .ok (),
    hashTransactionStartNullify := fun _ _ _ _ _ _ => .ok (),
    hashOutputFinalize := fun _ => .ok (),
    hashTransactionStartSegwit := fun _ _ _ => .ok (),
    hashSign := fun _ _ _ => .ok [48, 7, 1] }

/-- A driver that rejects the signature request. -/
def failSignOracle : Oracle :=
  { okOracle with hashSign := fun _ _ _ => .error "device" }

/-- Primitives whose templating puts a dummy signature slot and the key (or
the redeem script, for a P2SH coin) on the stack, and whose fold succeeds. -/
def okCollab : Collab :=
  { publicKeyConvert := fun b => 2 :: b,
    scriptInput := fun _ _ coin _ =>
      if isScripthash coin.script then some ([[0], redeemBytes], [])
      else some ([[], [2, 2]], []),
    signVector := fun _ _ sig ring => some [sig, ring.publicKey] }

/-- Primitives whose fold always refuses the signature. -/
def refuseCollab : Collab :=
  { okCollab with signVector := fun _ _ _ _ => none }

def app0 : AppState := { signingTX := false, locked := false }


/-- Decompose a bind whose run is known. -/
theorem M.bind_cases {α β : Type} {x : M α} {f : α → M β} {s : St}
    {r : Except Err β} {s2 : St} {w : List Event}
    (h : M.bind x f s = (r, s2, w)) :
    (∃ e, r = .error e ∧ x s = (.error e, s2, w)) ∨
    (∃ a s1 w1 w2, x s = (.ok a, s1, w1) ∧ f a s1 = (r, s2, w2) ∧
      w = w1 ++ w2) := by
  unfold M.bind at h
  split at h
  case _ e s1 w1 heq =>
    simp only [Prod.mk.injEq] at h
    obtain ⟨h1, h2, h3⟩ := h
    subst h2 h3
    subst h1
    exact Or.inl ⟨e, rfl, heq⟩
  case _ a s1 w1 heq =>
    split at h
    case _ r2 s2' w2 hf =>
      simp only [Prod.mk.injEq] at h
      obtain ⟨h1, h2, h3⟩ := h
      subst h1 h2 h3
      exact Or.inr ⟨a, s1, w1, w2, heq, hf, rfl⟩

/-- Decompose a bind with a successful run. -/
theorem M.bind_eq_ok {α β : Type} {x : M α} {f : α → M β} {s : St}
    {b : β} {s2 : St} {w : List Event}
    (h : M.bind x f s = (.ok b, s2, w)) :
    ∃ a s1 w1 w2, x s = (.ok a, s1, w1) ∧ f a s1 = (.ok b, s2, w2) ∧
      w = w1 ++ w2 := by
  rcases M.bind_cases h with ⟨e, he, _⟩ | hok
  · exact absurd he (by simp)
  · exact hok


/-- Every event a computation can emit satisfies `P`. -/
def EmitsP {α : Type} (x : M α) (P : Event → Prop) : Prop :=
  ∀ s r s' w, x s = (r, s', w) → ∀ e ∈ w, P e

/-- The computation never changes the `signingTX` flag. -/
def SigPres {α : Type} (x : M α) : Prop :=
  ∀ s r s' w, x s = (r, s', w) → s'.signingTX = s.signingTX

/-- The computation never changes the state at all. -/
def StPres {α : Type} (x : M α) : Prop :=
  ∀ s r s' w, x s = (r, s', w) → s' = s

theorem emitsP_of_nil {α : Type} {x : M α} (hx : ∀ s, (x s).2.2 = [])
    (P : Event → Prop) : EmitsP x P := by
  intro s r s' w h e he
  have hw : w = [] := by rw [← hx s, h]
  subst hw
  simp at he

theorem emitsP_devCall {α : Type} (ev : Event) (r : Except Err α)
    (P : Event → Prop) (hP : P ev) : EmitsP (M.devCall ev r) P := by
  intro s r' s' w h e he
  have hw : w = [ev] := by
    have : (M.devCall ev r s).2.2 = [ev] := rfl
    rw [h] at this
    exact this
  subst hw
  simp at he
  subst he
  exact hP

theorem emitsP_bind {α β : Type} {x : M α} {f : α → M β} {P : Event → Prop}
    (hx : EmitsP x P) (hf : ∀ a, EmitsP (f a) P) : EmitsP (M.bind x f) P := by
  intro s r s' w h e he
  rcases M.bind_cases h with ⟨e', _, hx'⟩ | ⟨a, s1, w1, w2, h1, h2, hw⟩
  · exact hx _ _ _ _ hx' e he
  · subst hw
    rcases List.mem_append.1 he with h' | h'
    · exact hx _ _ _ _ h1 e h'
    · exact hf a _ _ _ _ h2 e h'

theorem sigPres_of {α : Type} {x : M α}
    (hx : ∀ s, ((x s).2.1).signingTX = s.signingTX) : SigPres x := by
  intro s r s' w h
  rw [← hx s, h]

theorem stPres_of {α : Type} {x : M α} (hx : ∀ s, (x s).2.1 = s) :
    StPres x := by
  intro s r s' w h
  rw [← hx s, h]

theorem stPres_sigPres {α : Type} {x : M α} (hx : StPres x) : SigPres x := by
  intro s r s' w h
  rw [hx s r s' w h]

theorem sigPres_bind {α β : Type} {x : M α} {f : α → M β}
    (hx : SigPres x) (hf : ∀ a, SigPres (f a)) : SigPres (M.bind x f) := by
  intro s r s' w h
  rcases M.bind_cases h with ⟨e, _, hx'⟩ | ⟨a, s1, w1, w2, h1, h2, _⟩
  · exact hx _ _ _ _ hx'
  · rw [hf a _ _ _ _ h2, hx _ _ _ _ h1]

theorem stPres_bind {α β : Type} {x : M α} {f : α → M β}
    (hx : StPres x) (hf : ∀ a, StPres (f a)) : StPres (M.bind x f) := by
  intro s r s' w h
  rcases M.bind_cases h with ⟨e, _, hx'⟩ | ⟨a, s1, w1, w2, h1, h2, _⟩
  · exact hx _ _ _ _ hx'
  · rw [hf a _ _ _ _ h2, hx _ _ _ _ h1]

/-- Runs of a trace-free computation have empty traces. -/
theorem M.run_nil {α : Type} {x : M α} (hx : ∀ s, (x s).2.2 = [])
    {s : St} {r : Except Err α} {s' : St} {w : List Event}
    (h : x s = (r, s', w)) : w = [] := by
  rw [← hx s, h]

/-- Runs of a state-free computation keep the state. -/
theorem M.run_keep {α : Type} {x : M α} (hx : ∀ s, (x s).2.1 = s)
    {s : St} {r : Except Err α} {s' : St} {w : List Event}
    (h : x s = (r, s', w)) : s' = s := by
  rw [← hx s, h]

/-- A `devCall` run: the driver's answer, the unchanged state, the one
event. -/
theorem M.devCall_run {α : Type} {ev : Event} {resp : Except Err α}
    {s : St} {r : Except Err α} {s' : St} {w : List Event}
    (h : M.devCall ev resp s = (r, s', w)) :
    resp = r ∧ s' = s ∧ w = [ev] := by
  have h' : (resp, s, [ev]) = (r, s', w) := h
  simp only [Prod.mk.injEq] at h'
  exact ⟨h'.1, h'.2.1.symm, h'.2.2.symm⟩

/-- A successful `liftExcept` run pins the lifted value. -/
theorem M.liftExcept_run {α : Type} {v : Except Err α} {s : St}
    {a : α} {s' : St} {w : List Event}
    (h : M.liftExcept v s = (.ok a, s', w)) :
    v = .ok a ∧ s' = s ∧ w = [] := by
  have h' : (v, s, ([] : List Event)) = (.ok a, s', w) := h
  simp only [Prod.mk.injEq] at h'
  exact ⟨h'.1, h'.2.1.symm, h'.2.2.symm⟩

/-- A successful `liftOption` run pins the lifted value. -/
theorem M.liftOption_run {α : Type} {o : Option α} {msg : Err} {s : St}
    {a : α} {s' : St} {w : List Event}
    (h : M.liftOption o msg s = (.ok a, s', w)) :
    o = some a ∧ s' = s ∧ w = [] := by
  cases o with
  | none =>
    have h' : ((.error msg : Except Err α), s, ([] : List Event)) =
        (.ok a, s', w) := h
    simp only [Prod.mk.injEq] at h'
    exact absurd h'.1 (by simp)
  | some a' =>
    have h' : ((.ok a' : Except Err α), s, ([] : List Event)) =
        (.ok a, s', w) := h
    simp only [Prod.mk.injEq] at h'
    obtain ⟨h1, h2, h3⟩ := h'
    obtain rfl : a' = a := by simpa using h1
    exact ⟨rfl, h2.symm, h3.symm⟩

/-- A `getTx` run returns the state's transaction. -/
theorem M.getTx_run {s : St} {r : Except Err MTXrep} {s' : St}
    {w : List Event} (h : M.getTx s = (r, s', w)) :
    r = .ok s.tx ∧ s' = s ∧ w = [] := by
  have h' : ((.ok s.tx : Except Err MTXrep), s, ([] : List Event)) =
      (r, s', w) := h
  simp only [Prod.mk.injEq] at h'
  exact ⟨h'.1.symm, h'.2.1.symm, h'.2.2.symm⟩

/-- A `setTx` run replaces the state's transaction. -/
theorem M.setTx_run {tx : MTXrep} {s : St} {r : Except Err Unit} {s' : St}
    {w : List Event} (h : M.setTx tx s = (r, s', w)) :
    r = .ok () ∧ s' = { s with tx := tx } ∧ w = [] := by
  have h' : ((.ok () : Except Err Unit), { s with tx := tx },
      ([] : List Event)) = (r, s', w) := h
  simp only [Prod.mk.injEq] at h'
  exact ⟨h'.1.symm, h'.2.1.symm, h'.2.2.symm⟩

/-- Event discipline of one `signInput` run: no public-key, trusted-input or
shared-start calls, and every nullify call carries `firstRound = isNew`. -/
def SignInputEv (isNew : Bool) (e : Event) : Prop :=
  match e with
  | .getPublicKey _ => False
  | .getTrustedInput _ _ => False
  | .hashTransactionStart _ _ => False
  | .hashTransactionStartNullify _ fr _ => fr = isNew
  | _ => True

theorem passDevCalls_stPres (O : Oracle) (tr : TIMap) (li : LedgerTXInput)
    (isNew : Bool) (cl : Classified) (tx1 : MTXrep) :
    StPres (passDevCalls O tr li isNew cl tx1) := by
  unfold passDevCalls
  split
  · exact stPres_bind (stPres_of fun _ => rfl) fun _ => stPres_of fun _ => rfl
  · exact stPres_of fun _ => rfl

theorem passDevCalls_emits (O : Oracle) (tr : TIMap) (li : LedgerTXInput)
    (isNew : Bool) (cl : Classified) (tx1 : MTXrep) :
    EmitsP (passDevCalls O tr li isNew cl tx1) (SignInputEv isNew) := by
  unfold passDevCalls
  split
  · exact emitsP_bind (emitsP_devCall _ _ _ rfl)
      (fun _ => emitsP_devCall _ _ _ trivial)
  · exact emitsP_devCall _ _ _ trivial

/-- A completed pass is one nullify+finalize or one segwit start. -/
theorem passDevCalls_okTrace {O : Oracle} {tr : TIMap} {li : LedgerTXInput}
    {isNew : Bool} {cl : Classified} {tx1 : MTXrep} {s : St} {a : Unit}
    {s' : St} {w : List Event}
    (h : passDevCalls O tr li isNew cl tx1 s = (.ok a, s', w)) :
    w = [.hashTransactionStartNullify li.toKeyVal isNew false,
         .hashOutputFinalize] ∨
    w = [.hashTransactionStartSegwit li.toKeyVal] := by
  unfold passDevCalls at h
  by_cases hwit : cl.witness = false
  · rw [if_pos hwit] at h
    obtain ⟨u, s1, w1, w2, h1, h2, rfl⟩ := M.bind_eq_ok h
    obtain ⟨-, -, rfl⟩ := M.devCall_run h1
    obtain ⟨-, -, rfl⟩ := M.devCall_run h2
    left
    simp [hwit]
  · rw [if_neg hwit] at h
    obtain ⟨-, -, rfl⟩ := M.devCall_run h
    right
    rfl

theorem foldResult_nil (C : Collab) (idx : Nat) (cl : Classified)
    (vec : Stack) (sig : List Nat) (ring : KeyRing) :
    ∀ s, (foldResult C idx cl vec sig ring s).2.2 = [] := by
  intro s
  rcases hred : cl.redeem
  · rcases hC : C.signVector cl.prev vec sig ring with _ | result
    · simp [foldResult, hred, hC, M.pureM]
    · simp [foldResult, hred, hC, M.bind, M.getTx, M.setTx, M.pureM]
  · rcases hC : C.signVector cl.prev vec.dropLast sig ring with _ | result
    · simp [foldResult, hred, hC, M.pureM]
    · simp [foldResult, hred, hC, M.bind, M.getTx, M.setTx, M.pureM]

theorem foldResult_sig (C : Collab) (idx : Nat) (cl : Classified)
    (vec : Stack) (sig : List Nat) (ring : KeyRing) :
    ∀ s, ((foldResult C idx cl vec sig ring s).2.1).signingTX =
      s.signingTX := by
  intro s
  rcases hred : cl.redeem
  · rcases hC : C.signVector cl.prev vec sig ring with _ | result
    · simp [foldResult, hred, hC, M.pureM]
    · simp [foldResult, hred, hC, M.bind, M.getTx, M.setTx, M.pureM]
  · rcases hC : C.signVector cl.prev vec.dropLast sig ring with _ | result
    · simp [foldResult, hred, hC, M.pureM]
    · simp [foldResult, hred, hC, M.bind, M.getTx, M.setTx, M.pureM]

/-- A fold refused everywhere can only produce `false`. -/
theorem foldResult_refuse {C : Collab} {idx : Nat} {cl : Classified}
    {vec : Stack} {sig : List Nat} {ring : KeyRing} {s : St}
    {r : Except Err Bool} {s' : St} {w : List Event}
    (hsv : ∀ p st sg rg, C.signVector p st sg rg = none)
    (h : foldResult C idx cl vec sig ring s = (r, s', w)) : r = .ok false := by
  rcases hred : cl.redeem
  · simp only [foldResult, hred, hsv, Bool.false_eq_true, if_false] at h
    have h' : ((.ok false : Except Err Bool), s, ([] : List Event)) =
        (r, s', w) := h
    simp only [Prod.mk.injEq] at h'
    exact h'.1.symm
  · simp only [foldResult, hred, hsv, if_true] at h
    have h' : ((.ok false : Except Err Bool), s, ([] : List Event)) =
        (r, s', w) := h
    simp only [Prod.mk.injEq] at h'
    exact h'.1.symm

/-- A successful `true` fold pins the collaborator's stack and the written
transaction. -/
theorem foldResult_ok_true {C : Collab} {idx : Nat} {cl : Classified}
    {vec : Stack} {sig : List Nat} {ring : KeyRing} {s : St} {s' : St}
    {w : List Event}
    (h : foldResult C idx cl vec sig ring s = (.ok true, s', w)) :
    ∃ result,
      C.signVector cl.prev (if cl.redeem then vec.dropLast else vec) sig
          ring = some result ∧
      s'.tx = writeVec s.tx idx cl.vecWit
          (if cl.redeem then result ++ [vec.getLast?.getD []] else result) ∧
      s'.signingTX = s.signingTX := by
  rcases hred : cl.redeem
  · rcases hC : C.signVector cl.prev vec sig ring with _ | result
    · simp [foldResult, hred, hC, M.pureM, Prod.mk.injEq] at h
    · refine ⟨result, by simp [hred, hC], ?_⟩
      simp only [foldResult, hred, hC, M.bind, M.getTx, M.setTx, M.pureM,
        Bool.false_eq_true, if_false, Prod.mk.injEq] at h
      obtain ⟨-, h2, -⟩ := h
      subst h2
      simp [hred]
  · rcases hC : C.signVector cl.prev vec.dropLast sig ring with _ | result
    · simp [foldResult, hred, hC, M.pureM, Prod.mk.injEq] at h
    · refine ⟨result, by simp [hred, hC], ?_⟩
      simp only [foldResult, hred, hC, M.bind, M.getTx, M.setTx, M.pureM,
        if_true, Prod.mk.injEq] at h
      obtain ⟨-, h2, -⟩ := h
      subst h2
      simp [hred]

theorem signInputM_sigPres (O : Oracle) (C : Collab) (net : Network)
    (tr : TIMap) (li : LedgerTXInput) (index? : Option Nat) (isNew : Bool) :
    SigPres (signInputM O C net tr li index? isNew) := by
  unfold signInputM
  refine sigPres_bind (stPres_sigPres (stPres_of fun _ => rfl)) fun ring => ?_
  refine sigPres_bind (stPres_sigPres (stPres_of fun _ => rfl)) fun idx => ?_
  refine sigPres_bind (stPres_sigPres (stPres_of fun _ => rfl)) fun tx0 => ?_
  refine sigPres_bind (stPres_sigPres (stPres_of fun _ => rfl)) fun u1 => ?_
  refine sigPres_bind (stPres_sigPres (stPres_of fun _ => rfl)) fun svwv => ?_
  refine sigPres_bind (sigPres_of fun _ => rfl) fun u2 => ?_
  refine sigPres_bind (stPres_sigPres (stPres_of fun _ => rfl)) fun cl => ?_
  refine sigPres_bind (stPres_sigPres (passDevCalls_stPres _ _ _ _ _ _))
    fun u3 => ?_
  refine sigPres_bind (stPres_sigPres (stPres_of fun _ => rfl)) fun sig => ?_
  exact sigPres_of (foldResult_sig _ _ _ _ _ _)

theorem signInputM_emits (O : Oracle) (C : Collab) (net : Network)
    (tr : TIMap) (li : LedgerTXInput) (index? : Option Nat) (isNew : Bool) :
    EmitsP (signInputM O C net tr li index? isNew) (SignInputEv isNew) := by
  unfold signInputM
  refine emitsP_bind (emitsP_of_nil (fun _ => rfl) _) fun ring => ?_
  refine emitsP_bind (emitsP_of_nil (fun _ => rfl) _) fun idx => ?_
  refine emitsP_bind (emitsP_of_nil (fun _ => rfl) _) fun tx0 => ?_
  refine emitsP_bind (emitsP_of_nil (fun _ => rfl) _) fun u1 => ?_
  refine emitsP_bind (emitsP_of_nil (fun _ => rfl) _) fun svwv => ?_
  refine emitsP_bind (emitsP_of_nil (fun _ => rfl) _) fun u2 => ?_
  refine emitsP_bind (emitsP_of_nil (fun _ => rfl) _) fun cl => ?_
  refine emitsP_bind (passDevCalls_emits _ _ _ _ _ _) fun u3 => ?_
  refine emitsP_bind (emitsP_devCall _ _ _ trivial) fun sig => ?_
  exact emitsP_of_nil (foldResult_nil _ _ _ _ _ _) _

/-- A completed `signInput` run's trace: one nullify+finalize pass or one
segwit pass, then the signature request. -/
theorem signInputM_okTrace {O : Oracle} {C : Collab} {net : Network}
    {tr : TIMap} {li : LedgerTXInput} {index? : Option Nat} {isNew : Bool}
    {s : St} {b : Bool} {s' : St} {w : List Event}
    (h : signInputM O C net tr li index? isNew s = (.ok b, s', w)) :
    w = [.hashTransactionStartNullify li.toKeyVal isNew false,
         .hashOutputFinalize, .hashSign li.path li.type] ∨
    w = [.hashTransactionStartSegwit li.toKeyVal,
         .hashSign li.path li.type] := by
  unfold signInputM at h
  obtain ⟨ring, t1, w1, v1, h1, hc1, rfl⟩ := M.bind_eq_ok h
  obtain ⟨-, -, rfl⟩ := M.liftExcept_run h1
  obtain ⟨idx, t2, w2, v2, h2, hc2, rfl⟩ := M.bind_eq_ok hc1
  obtain ⟨-, -, rfl⟩ := M.liftOption_run h2
  obtain ⟨tx0, t3, w3, v3, h3, hc3, rfl⟩ := M.bind_eq_ok hc2
  obtain ⟨-, -, rfl⟩ := M.getTx_run h3
  obtain ⟨u1, t4, w4, v4, h4, hc4, rfl⟩ := M.bind_eq_ok hc3
  obtain ⟨-, -, rfl⟩ := M.liftOption_run h4
  obtain ⟨svwv, t5, w5, v5, h5, hc5, rfl⟩ := M.bind_eq_ok hc4
  obtain ⟨-, -, rfl⟩ := M.liftOption_run h5
  obtain ⟨u2, t6, w6, v6, h6, hc6, rfl⟩ := M.bind_eq_ok hc5
  obtain ⟨-, -, rfl⟩ := M.setTx_run h6
  obtain ⟨cl, t7, w7, v7, h7, hc7, rfl⟩ := M.bind_eq_ok hc6
  obtain ⟨-, -, rfl⟩ := M.liftExcept_run h7
  obtain ⟨u3, t8, w8, v8, h8, hc8, rfl⟩ := M.bind_eq_ok hc7
  obtain ⟨sig, t9, w9, v9, h9, hc9, rfl⟩ := M.bind_eq_ok hc8
  obtain ⟨-, -, rfl⟩ := M.devCall_run h9
  have hnil := M.run_nil
    (foldResult_nil C idx cl (if cl.vecWit then svwv.2 else svwv.1) sig ring)
    hc9
  subst hnil
  rcases passDevCalls_okTrace h8 with hw | hw <;> subst hw <;> simp

/-- When the collaborator refuses every fold, a completed `signInput` run
reports `false` (it never raises for a refused fold). -/
theorem signInputM_refuse {O : Oracle} {C : Collab} {net : Network}
    {tr : TIMap} {li : LedgerTXInput} {index? : Option Nat} {isNew : Bool}
    {s : St} {b : Bool} {s' : St} {w : List Event}
    (hsv : ∀ p st sg rg, C.signVector p st sg rg = none)
    (h : signInputM O C net tr li index? isNew s = (.ok b, s', w)) :
    b = false := by
  unfold signInputM at h
  obtain ⟨ring, t1, w1, v1, h1, hc1, rfl⟩ := M.bind_eq_ok h
  obtain ⟨idx, t2, w2, v2, h2, hc2, rfl⟩ := M.bind_eq_ok hc1
  obtain ⟨tx0, t3, w3, v3, h3, hc3, rfl⟩ := M.bind_eq_ok hc2
  obtain ⟨u1, t4, w4, v4, h4, hc4, rfl⟩ := M.bind_eq_ok hc3
  obtain ⟨svwv, t5, w5, v5, h5, hc5, rfl⟩ := M.bind_eq_ok hc4
  obtain ⟨u2, t6, w6, v6, h6, hc6, rfl⟩ := M.bind_eq_ok hc5
  obtain ⟨cl, t7, w7, v7, h7, hc7, rfl⟩ := M.bind_eq_ok hc6
  obtain ⟨u3, t8, w8, v8, h8, hc8, rfl⟩ := M.bind_eq_ok hc7
  obtain ⟨sig, t9, w9, v9, h9, hc9, rfl⟩ := M.bind_eq_ok hc8
  have hb := foldResult_refuse hsv hc9
  simpa using hb.symm

/-- Classification with `redeem = true` pins the redeem script as the
trailing item of the receiving templated vector. -/
theorem classifyInput_redeem {cs : Script} {sv wv : Stack} {cl : Classified}
    (h : classifyInput cs sv wv = .ok cl) (hred : cl.redeem = true) :
    (if cl.vecWit then wv else sv).getLast? = some cl.prev := by
  unfold classifyInput at h
  split at h
  case _ e heq => simp at h
  case _ c1 heq =>
    split at h
    · rcases hr : getRedeemStack wv with _ | r
      · rw [hr] at h
        simp at h
      · rw [hr] at h
        simp only [Except.ok.injEq] at h
        subst h
        simpa [getRedeemStack] using hr
    · rcases hw : getWitnessPubkeyhash c1.prev with _ | wpkh
      · rw [hw] at h
        simp only [Except.ok.injEq] at h
        subst h
        split at heq
        · rcases hr2 : getRedeemStack sv with _ | r
          · rw [hr2] at heq
            simp at heq
          · rw [hr2] at heq
            simp only [Except.ok.injEq] at heq
            subst heq
            simpa [getRedeemStack] using hr2
        · simp only [Except.ok.injEq] at heq
          subst heq
          simp at hred
      · rw [hw] at h
        simp only [Except.ok.injEq] at h
        subst h
        simp at hred

theorem M.pureM_run {α : Type} {a : α} {s : St} {r : Except Err α} {s' : St}
    {w : List Event} (h : M.pureM a s = (r, s', w)) :
    r = .ok a ∧ s' = s ∧ w = [] := by
  have h' : ((.ok a : Except Err α), s, ([] : List Event)) = (r, s', w) := h
  simp only [Prod.mk.injEq] at h'
  exact ⟨h'.1.symm, h'.2.1.symm, h'.2.2.symm⟩

theorem M.setSigning_run {b : Bool} {s : St} {r : Except Err Unit} {s' : St}
    {w : List Event} (h : M.setSigning b s = (r, s', w)) :
    r = .ok () ∧ s' = { s with signingTX := b } ∧ w = [] := by
  have h' : ((.ok () : Except Err Unit), { s with signingTX := b },
      ([] : List Event)) = (r, s', w) := h
  simp only [Prod.mk.injEq] at h'
  exact ⟨h'.1.symm, h'.2.1.symm, h'.2.2.symm⟩

theorem lookupKey_setKey_self {β : Type} (m : List (POKey × β)) (k : POKey)
    (v : β) : lookupKey (setKey m k v) k = some v := by
  induction m with
  | nil => simp [setKey, lookupKey]
  | cons kv t ih =>
    by_cases hk : kv.1 = k
    · simp [setKey, hk, lookupKey]
    · rcases kv with ⟨k', v'⟩
      simp only [setKey, lookupKey, if_neg hk]
      exact ih

theorem lookupKey_setKey_mono {β : Type} (m : List (POKey × β)) (k k' : POKey)
    (v : β) (h : (lookupKey m k).isSome) :
    (lookupKey (setKey m k' v) k).isSome := by
  induction m with
  | nil => simp [lookupKey] at h
  | cons kv t ih =>
    rcases kv with ⟨k0, v0⟩
    by_cases h0 : k0 = k'
    · subst h0
      simp only [setKey, if_pos rfl]
      by_cases hkk : k0 = k
      · simp [lookupKey, hkk]
      · simp only [lookupKey, if_neg hkk] at h ⊢
        exact h
    · simp only [setKey, if_neg h0]
      by_cases hkk : k0 = k
      · simp [lookupKey, hkk]
      · simp only [lookupKey, if_neg hkk] at h ⊢
        exact ih h

/-- Field preservation by the public-key loop: everything except
`publicKey` and the value caches is untouched. -/
def PubFill (a b : LedgerTXInput) : Prop :=
  b.path = a.path ∧ b.tx = a.tx ∧ b.index = a.index ∧ b.witness = a.witness ∧
  b.redeem = a.redeem ∧ b.type = a.type ∧ b.keyCache = a.keyCache ∧
  b.outpointCache = a.outpointCache

theorem fillPublicKeys_run (O : Oracle) (C : Collab) :
    ∀ (lis : List LedgerTXInput) (s : St) (r : Except Err (List LedgerTXInput))
      (s' : St) (w : List Event),
    fillPublicKeys O C lis s = (r, s', w) →
    s' = s ∧ (∀ e ∈ w, isPubEv e = true) ∧
    ∀ lis', r = .ok lis' → List.Forall₂ PubFill lis lis' := by
  intro lis
  induction lis with
  | nil =>
    intro s r s' w h
    obtain ⟨h1, h2, h3⟩ := M.pureM_run h
    subst h2 h3 h1
    refine ⟨rfl, by simp, ?_⟩
    intro lis' hr
    obtain rfl : lis' = [] := by simpa using hr.symm
    exact List.Forall₂.nil
  | cons li rest ih =>
    intro s r s' w h
    rw [fillPublicKeys] at h
    rcases M.bind_cases h with ⟨e, rfl, hx⟩ | ⟨a, s1, w1, w2, h1, h2, rfl⟩
    · -- the per-descriptor step failed: only a device error can do that
      rcases hpk : li.publicKey with _ | pk
      · rw [hpk] at hx
        rcases M.bind_cases hx with ⟨e', he', hx'⟩ | ⟨raw, sr, wr, wr2, hr1, hr2, rfl⟩
        · obtain ⟨-, h2', h3'⟩ := M.devCall_run hx'
          subst h2' h3'
          refine ⟨rfl, by simp [isPubEv], ?_⟩
          intro lis' hr
          simp at hr
        · obtain ⟨h1', h2', h3'⟩ := M.pureM_run hr2
          simp at h1'
      · rw [hpk] at hx
        obtain ⟨h1', h2', h3'⟩ := M.pureM_run hx
        simp at h1'
    · -- the per-descriptor step succeeded with some updated descriptor a
      have hstep : s1 = s ∧ (∀ e ∈ w1, isPubEv e = true) ∧ PubFill li a := by
        rcases hpk : li.publicKey with _ | pk
        · rw [hpk] at h1
          obtain ⟨raw, sr, wr, wr2, hr1, hr2, rfl⟩ := M.bind_eq_ok h1
          obtain ⟨hre, rfl, rfl⟩ := M.devCall_run hr1
          obtain ⟨ha, rfl, rfl⟩ := M.pureM_run hr2
          obtain rfl :
              a = { li with publicKey := some (C.publicKeyConvert raw) } := by
            simpa using ha
          exact ⟨rfl, by simp [isPubEv], by simp [PubFill]⟩
        · rw [hpk] at h1
          obtain ⟨ha, rfl, rfl⟩ := M.pureM_run h1
          obtain rfl : a = li := by simpa using ha
          exact ⟨rfl, by simp, by simp [PubFill]⟩
      obtain ⟨rfl, hw1, hfill⟩ := hstep
      rcases M.bind_cases h2 with ⟨e, rfl, hx2⟩ | ⟨rest', s2, w21, w22, h21, h22, rfl⟩
      · obtain ⟨rfl, hw2, -⟩ := ih s1 _ _ _ hx2
        refine ⟨rfl, ?_, ?_⟩
        · intro e he
          rcases List.mem_append.1 he with h' | h'
          · exact hw1 e h'
          · exact hw2 e h'
        · intro lis' hr
          simp at hr
      · obtain ⟨rfl, hw2, hf2⟩ := ih s1 _ _ _ h21
        obtain ⟨hr', rfl, rfl⟩ := M.pureM_run h22
        refine ⟨rfl, ?_, ?_⟩
        · intro e he
          simp only [List.append_nil] at he
          rcases List.mem_append.1 he with h' | h'
          · exact hw1 e h'
          · exact hw2 e h'
        · intro lis' hr
          rw [hr'] at hr
          obtain rfl : lis' = a :: rest' := by simpa using hr.symm
          exact List.Forall₂.cons hfill (hf2 rest' rfl)

theorem collectTrusted_run (O : Oracle) :
    ∀ (lis : List LedgerTXInput) (m : TIMap) (hw : Bool) (s : St)
      (r : Except Err (TIMap × Bool)) (s' : St) (w : List Event),
    collectTrusted O m hw lis s = (r, s', w) →
    s' = s ∧ (∀ e ∈ w, isTrustedEv e = true) ∧
    ∀ p, r = .ok p →
      w = (lis.filter fun li => !li.witness && li.redeem.isNone).map
          (fun li => Event.getTrustedInput li.tx.hash li.index) ∧
      p.2 = (hw || lis.any (·.witness)) ∧
      (∀ k, (lookupKey m k).isSome = true →
        (lookupKey p.1 k).isSome = true) ∧
      (∀ li ∈ lis, li.witness = false → li.redeem = none →
        (lookupKey p.1 li.toKeyVal).isSome = true) := by
  intro lis
  induction lis with
  | nil =>
    intro m hw s r s' w h
    obtain ⟨h1, h2, h3⟩ := M.pureM_run h
    subst h2 h3 h1
    refine ⟨rfl, by simp, ?_⟩
    intro p hp
    obtain rfl : p = (m, hw) := by simpa using hp.symm
    exact ⟨by simp, by simp, fun k hk => hk, by simp⟩
  | cons li rest ih =>
    intro m hw s r s' w h
    rw [collectTrusted] at h
    by_cases hwit : li.witness = true
    · rw [if_pos hwit] at h
      obtain ⟨rfl, hev, hok⟩ := ih m true s r s' w h
      refine ⟨rfl, hev, ?_⟩
      intro p hp
      obtain ⟨htr, hhw, hmono, hcov⟩ := hok p hp
      refine ⟨by simpa [List.filter_cons, hwit] using htr,
        by simp [hwit, hhw], hmono, ?_⟩
      intro li' hli' hw' hr'
      rcases List.mem_cons.1 hli' with rfl | hmem
      · rw [hw'] at hwit
        simp at hwit
      · exact hcov li' hmem hw' hr'
    · rw [if_neg hwit] at h
      have hwitf : li.witness = false := by
        simpa using hwit
      by_cases hred : li.redeem.isSome = true
      · rw [if_pos hred] at h
        obtain ⟨rfl, hev, hok⟩ := ih m hw s r s' w h
        refine ⟨rfl, hev, ?_⟩
        intro p hp
        obtain ⟨htr, hhw, hmono, hcov⟩ := hok p hp
        have hredne : ¬li.redeem = none := by
          cases hv : li.redeem
          · rw [hv] at hred
            simp at hred
          · simp
        refine ⟨by simpa [List.filter_cons, hwitf, hredne] using htr,
          by simp [hwitf, hhw], hmono, ?_⟩
        intro li' hli' hw' hr'
        rcases List.mem_cons.1 hli' with rfl | hmem
        · rw [hr'] at hred
          simp at hred
        · exact hcov li' hmem hw' hr'
      · rw [if_neg hred] at h
        have hredn : li.redeem = none := by
          cases hv : li.redeem
          · rfl
          · rw [hv] at hred
            simp at hred
        rcases M.bind_cases h with ⟨e, rfl, hx⟩ | ⟨ti, s1, w1, w2, h1, h2, rfl⟩
        · obtain ⟨-, h2', h3'⟩ := M.devCall_run hx
          subst h2' h3'
          refine ⟨rfl, by simp [isTrustedEv], ?_⟩
          intro p hp
          simp at hp
        · obtain ⟨hre, rfl, rfl⟩ := M.devCall_run h1
          obtain ⟨rfl, hev, hok⟩ :=
            ih (setKey m li.toKeyVal ti) hw s1 r s' w2 h2
          refine ⟨rfl, ?_, ?_⟩
          · intro e he
            rcases List.mem_append.1 he with h' | h'
            · simp only [List.mem_singleton] at h'
              subst h'
              rfl
            · exact hev e h'
          · intro p hp
            obtain ⟨htr, hhw, hmono, hcov⟩ := hok p hp
            refine ⟨by simp [List.filter_cons, hwitf, hredn, htr],
              by simp [hwitf, hhw], ?_, ?_⟩
            · intro k hk
              exact hmono k (lookupKey_setKey_mono m k li.toKeyVal ti hk)
            · intro li' hli' hw' hr'
              rcases List.mem_cons.1 hli' with rfl | hmem
              · refine hmono li'.toKeyVal ?_
                rw [lookupKey_setKey_self]
                rfl
              · exact hcov li' hmem hw' hr'

theorem emitsP_mono {α : Type} {x : M α} {P Q : Event → Prop}
    (hx : EmitsP x P) (hPQ : ∀ e, P e → Q e) : EmitsP x Q := by
  intro s r s' w h e he
  exact hPQ e (hx s r s' w h e he)

theorem signLoop_sigPres (O : Oracle) (C : Collab) (net : Network)
    (tr : TIMap) (im : List (POKey × Nat)) :
    ∀ (newtx : Bool) (lis : List LedgerTXInput),
    SigPres (signLoop O C net tr im newtx lis) := by
  intro newtx lis
  induction lis generalizing newtx with
  | nil => exact stPres_sigPres (stPres_of fun _ => rfl)
  | cons li rest ih =>
    rw [signLoop]
    exact sigPres_bind (signInputM_sigPres _ _ _ _ _ _ _) fun _ => ih false

theorem signLoop_emits_false (O : Oracle) (C : Collab) (net : Network)
    (tr : TIMap) (im : List (POKey × Nat)) :
    ∀ (lis : List LedgerTXInput),
    EmitsP (signLoop O C net tr im false lis) (SignInputEv false) := by
  intro lis
  induction lis with
  | nil => exact emitsP_of_nil (fun _ => rfl) _
  | cons li rest ih =>
    rw [signLoop]
    exact emitsP_bind (signInputM_emits _ _ _ _ _ _ _) fun _ => ih

/-- Whatever `newtx` is, the per-input loop issues no public-key,
trusted-input or shared-start calls. -/
theorem signLoop_emitsLoop (O : Oracle) (C : Collab) (net : Network)
    (tr : TIMap) (im : List (POKey × Nat)) :
    ∀ (newtx : Bool) (lis : List LedgerTXInput),
    EmitsP (signLoop O C net tr im newtx lis)
      (fun e => isPubEv e = false ∧ isTrustedEv e = false ∧
        isStartEv e = false) := by
  intro newtx lis
  induction lis generalizing newtx with
  | nil => exact emitsP_of_nil (fun _ => rfl) _
  | cons li rest ih =>
    rw [signLoop]
    refine emitsP_bind (emitsP_mono (signInputM_emits _ _ _ _ _ _ _) ?_)
      fun _ => ih false
    intro e he
    cases e <;> simp_all [SignInputEv, isPubEv, isTrustedEv, isStartEv]

/-- A completed loop run's trace: empty, or the first descriptor's pass
(with `firstRound = newtx` on the nullify variant) followed by events of
later descriptors in which every nullify carries `firstRound = false`. -/
theorem signLoop_okTrace {O : Oracle} {C : Collab} {net : Network}
    {tr : TIMap} {im : List (POKey × Nat)} {newtx : Bool}
    {lis : List LedgerTXInput} {s : St} {u : Unit} {s' : St} {w : List Event}
    (h : signLoop O C net tr im newtx lis s = (.ok u, s', w)) :
    w = [] ∨
    ∃ li wh wt, w = wh ++ wt ∧
      (wh = [.hashTransactionStartNullify (li : LedgerTXInput).toKeyVal
               newtx false,
             .hashOutputFinalize, .hashSign li.path li.type] ∨
       wh = [.hashTransactionStartSegwit li.toKeyVal,
             .hashSign li.path li.type]) ∧
      (∀ e ∈ wt, SignInputEv false e) := by
  cases lis with
  | nil =>
    obtain ⟨-, -, h3⟩ := M.pureM_run h
    exact Or.inl h3
  | cons li rest =>
    rw [signLoop] at h
    obtain ⟨b, s1, w1, w2, h1, h2, rfl⟩ := M.bind_eq_ok h
    refine Or.inr ⟨li, w1, w2, rfl, signInputM_okTrace h1, ?_⟩
    intro e he
    exact signLoop_emits_false O C net tr im rest s1 _ _ _ h2 e he

/-- The shared priming block of `_signTransaction` never touches the
state. -/
theorem primingStPres (O : Oracle) (tx0 : MTXrep) (hw : Bool) :
    StPres (if hw then
      M.bind (M.devCall (.hashTransactionStart true true)
          (O.hashTransactionStart tx0 [] true true)) fun _ =>
        M.devCall .hashOutputFinalize (O.hashOutputFinalize tx0)
    else M.pureM ()) := by
  split
  · exact stPres_bind (stPres_of fun _ => rfl) fun _ => stPres_of fun _ => rfl
  · exact stPres_of fun _ => rfl

/-- A failed `_signTransaction` run leaves `signingTX` raised: the flag is
set on entry, and no error path resets it. -/
theorem _signTransactionM_err {O : Oracle} {C : Collab} {net : Network}
    {inputs : List LedgerTXInput} {s : St} {e : Err} {s' : St}
    {w : List Event}
    (h : _signTransactionM O C net inputs s = (.error e, s', w)) :
    s'.signingTX = true := by
  unfold _signTransactionM at h
  rcases M.bind_cases h with ⟨e0, he0, hx⟩ | ⟨u0, s1, w1, w2, h1, hcont, rfl⟩
  · obtain ⟨h1', -, -⟩ := M.setSigning_run hx
    simp at h1'
  · obtain ⟨-, rfl, rfl⟩ := M.setSigning_run h1
    suffices hs : s'.signingTX = ({ s with signingTX := true } : St).signingTX
      by simpa using hs
    rcases M.bind_cases hcont with ⟨e1, he1, hx1⟩ | ⟨inputs1, s2, wA, wB, hA, hcont2, rfl⟩
    · obtain ⟨rfl, -, -⟩ := fillPublicKeys_run O C inputs _ _ _ _ hx1
      rfl
    · obtain ⟨rfl, -, -⟩ := fillPublicKeys_run O C inputs _ _ _ _ hA
      rcases M.bind_cases hcont2 with ⟨e2, he2, hx2⟩ | ⟨mhw, s3, wC, wD, hC, hcont3, rfl⟩
      · obtain ⟨rfl, -, -⟩ := collectTrusted_run O inputs1 _ _ _ _ _ _ hx2
        rfl
      · obtain ⟨rfl, -, -⟩ := collectTrusted_run O inputs1 _ _ _ _ _ _ hC
        rcases M.bind_cases hcont3 with ⟨e3, he3, hx3⟩ | ⟨tx0, s4, wE, wF, hE, hcont4, rfl⟩
        · obtain ⟨h3', -, -⟩ := M.getTx_run hx3
          simp at h3'
        · obtain ⟨-, rfl, rfl⟩ := M.getTx_run hE
          rcases M.bind_cases hcont4 with ⟨e4, he4, hx4⟩ | ⟨u4, s5, wG, wH, hG, hcont5, rfl⟩
          · rw [primingStPres O tx0 mhw.2 _ _ _ _ hx4]
          · rw [← primingStPres O tx0 mhw.2 _ _ _ _ hG]
            rcases M.bind_cases hcont5 with ⟨e5, he5, hx5⟩ | ⟨u5, s6, wI, wJ, hI, hcont6, rfl⟩
            · exact signLoop_sigPres O C net mhw.1 _ (!mhw.2) inputs1 _ _ _ _
                hx5
            · rcases M.bind_cases hcont6 with ⟨e6, he6, hx6⟩ | ⟨u6, s7, wK, wL, hK, hcont7, rfl⟩
              · obtain ⟨h6', -, -⟩ := M.setSigning_run hx6
                simp at h6'
              · obtain ⟨h7', -, -⟩ := M.getTx_run hcont7
                simp at h7'

/-- A completed `_signTransaction` run decomposes into the public-key
phase, the trusted-input phase, the optional shared priming pass, and the
per-input loop, with the trace concatenated in that order. -/
theorem _signTransactionM_ok {O : Oracle} {C : Collab} {net : Network}
    {inputs : List LedgerTXInput} {s : St} {tx' : MTXrep} {s' : St}
    {w : List Event}
    (h : _signTransactionM O C net inputs s = (.ok tx', s', w)) :
    ∃ s0 sA sB sD inputs1 m hw wf wc wl,
      fillPublicKeys O C inputs s0 = (.ok inputs1, sA, wf) ∧
      collectTrusted O [] false inputs1 sA = (.ok (m, hw), sB, wc) ∧
      signLoop O C net m (idxMapOf sB.tx) (!hw) inputs1 sB =
        (.ok (), sD, wl) ∧
      w = wf ++ wc ++
        (if hw then [Event.hashTransactionStart true true,
                     Event.hashOutputFinalize] else []) ++ wl := by
  unfold _signTransactionM at h
  obtain ⟨u0, s1, w1, w2, h1, hk1, rfl⟩ := M.bind_eq_ok h
  obtain ⟨-, rfl, rfl⟩ := M.setSigning_run h1
  obtain ⟨inputs1, sA, wf, wB, hfill, hk2, rfl⟩ := M.bind_eq_ok hk1
  obtain ⟨mhw, sB, wc, wD, hcol, hk3, rfl⟩ := M.bind_eq_ok hk2
  obtain ⟨tx0, sB2, wE, wF, hgt, hk4, rfl⟩ := M.bind_eq_ok hk3
  obtain ⟨hval, rfl, rfl⟩ := M.getTx_run hgt
  obtain ⟨u4, sC, wp, wH, hp, hk5, rfl⟩ := M.bind_eq_ok hk4
  obtain ⟨u5, sD, wl, wJ, hloop, hk6, rfl⟩ := M.bind_eq_ok hk5
  obtain ⟨u6, sE, wK, wL, hsig, hk7, rfl⟩ := M.bind_eq_ok hk6
  obtain ⟨-, rfl, rfl⟩ := M.setSigning_run hsig
  obtain ⟨-, -, rfl⟩ := M.getTx_run hk7
  obtain rfl : tx0 = sB2.tx := by simpa using hval
  have hpres := primingStPres O sB2.tx mhw.2 _ _ _ _ hp
  subst hpres
  have hwp : wp = (if mhw.2 then
      [Event.hashTransactionStart true true, Event.hashOutputFinalize]
      else []) := by
    by_cases hhw : mhw.2 = true
    · rw [if_pos hhw]
      rw [if_pos hhw] at hp
      obtain ⟨ua, sx, wx, wy, hx, hy, rfl⟩ := M.bind_eq_ok hp
      obtain ⟨-, -, rfl⟩ := M.devCall_run hx
      obtain ⟨-, -, rfl⟩ := M.devCall_run hy
      rfl
    · rw [if_neg hhw]
      rw [if_neg hhw] at hp
      obtain ⟨-, -, rfl⟩ := M.pureM_run hp
      rfl
  subst hwp
  exact ⟨_, sA, _, sD, inputs1, mhw.1, mhw.2, wf, wc, wl,
    hfill, by simpa using hcol, by simpa using hloop, by simp⟩

theorem nullifyRounds_append (w1 w2 : List Event) :
    nullifyRounds (w1 ++ w2) = nullifyRounds w1 ++ nullifyRounds w2 :=
  List.filterMap_append w1 w2 _

theorem nullifyRounds_all_false {w : List Event}
    (h : ∀ e ∈ w, SignInputEv false e) :
    ∀ fr ∈ nullifyRounds w, fr = false := by
  intro fr hfr
  rcases List.mem_filterMap.1 hfr with ⟨e, he, hfe⟩
  have hse := h e he
  cases e <;> simp_all [SignInputEv]

theorem nullifyRounds_eq_nil {w : List Event}
    (h : ∀ e ∈ w, isPassEv e = false) : nullifyRounds w = [] := by
  induction w with
  | nil => rfl
  | cons e t ih =>
    have he := h e (by simp)
    have ht : nullifyRounds t = [] := ih fun x hx => h x (by simp [hx])
    cases e <;> simp_all [isPassEv, nullifyRounds]

theorem filter_isPass_eq_nil {w : List Event}
    (h : ∀ e ∈ w, isPassEv e = false) : w.filter isPassEv = [] := by
  rw [List.filter_eq_nil_iff]
  intro e he
  simp [h e he]

theorem isPass_of_pub {e : Event} (h : isPubEv e = true) :
    isPassEv e = false := by
  cases e <;> simp_all [isPubEv, isPassEv]

theorem isPass_of_trusted {e : Event} (h : isTrustedEv e = true) :
    isPassEv e = false := by
  cases e <;> simp_all [isTrustedEv, isPassEv]

theorem primingView_of_pub {e : Event} (h : isPubEv e = true) :
    primingView e = false := by
  cases e <;> simp_all [isPubEv, primingView, isStartEv, isFinalizeEv,
    isPassEv]

theorem primingView_of_trusted {e : Event} (h : isTrustedEv e = true) :
    primingView e = false := by
  cases e <;> simp_all [isTrustedEv, primingView, isStartEv, isFinalizeEv,
    isPassEv]

theorem trusted_of_pub {e : Event} (h : isPubEv e = true) :
    isTrustedEv e = false := by
  cases e <;> simp_all [isPubEv, isTrustedEv]

/-- Descriptors before and after the public-key loop agree on the witness
flags. -/
theorem pubFill_any {lis lis' : List LedgerTXInput}
    (h : List.Forall₂ PubFill lis lis') :
    lis'.any (·.witness) = lis.any (·.witness) := by
  induction h with
  | nil => rfl
  | cons hab hrest ih =>
    obtain ⟨-, -, -, hwit, -⟩ := hab
    simp [hwit, ih]

/-- Descriptors before and after the public-key loop produce the same
trusted-input call list. -/
theorem pubFill_trustedList {lis lis' : List LedgerTXInput}
    (h : List.Forall₂ PubFill lis lis') :
    (lis'.filter fun li => !li.witness && li.redeem.isNone).map
      (fun li => Event.getTrustedInput li.tx.hash li.index) =
    (lis.filter fun li => !li.witness && li.redeem.isNone).map
      (fun li => Event.getTrustedInput li.tx.hash li.index) := by
  induction h with
  | nil => rfl
  | @cons a b l1 l2 hab hrest ih =>
    obtain ⟨-, htx, hidx, hwit, hred, -⟩ := hab
    have hcond : (!b.witness && b.redeem.isNone) =
        (!a.witness && a.redeem.isNone) := by rw [hwit, hred]
    rw [List.filter_cons, List.filter_cons, hcond]
    by_cases hc : (!a.witness && a.redeem.isNone) = true
    · rw [if_pos hc, if_pos hc]
      simp only [List.map_cons, htx, hidx, ih]
    · rw [if_neg hc, if_neg hc]
      exact ih

/-- Valid options supplying `type = SIGHASH_ALL` (bcoin value 1). -/
def optsTypeALL : TXInputOptions :=
  { path := some [44, 0, 0, 0, 0], tx := some prevTxPlain, index := some 0,
    type := some hashTypeALL }

/-- The same options supplying `type = SIGHASH_NONE` (bcoin value 2). -/
def optsTypeNone : TXInputOptions :=
  { path := some [44, 0, 0, 0, 0], tx := some prevTxPlain, index := some 0,
    type := some 2 }

/-- C1: The claim says `fromOptions` rejects every supplied `options.type`
other than SIGHASH_ALL and accepts SIGHASH_ALL itself.  The source's
assertion is inverted (`assert(options.type !== Script.hashType.ALL,
'Ledger only supports SIGHASH_ALL')`): evaluating the embedded code shows
that supplying SIGHASH_ALL (1) is rejected with the very message claiming
only SIGHASH_ALL is supported, while SIGHASH_NONE (2) is accepted and
stored. -/
theorem c1_sighash_check_inverted :
    fromOptions optsTypeALL = .error "Ledger only supports SIGHASH_ALL" ∧
    (fromOptions optsTypeNone).map (fun li => li.type) = .ok 2 :=
  ⟨rfl, rfl⟩

/-- C8: `refresh()` clears exactly the five derived caches (coin, ring,
outpoint key, previous script, outpoint) in one operation and leaves every
constructor field (path, tx, index, witness, redeem, type, publicKey)
unchanged. -/
theorem c8_refresh_frame (li : LedgerTXInput) :
    li.refresh.coinCache = none ∧ li.refresh.ringCache = none ∧
    li.refresh.keyCache = none ∧ li.refresh.prevCache = none ∧
    li.refresh.outpointCache = none ∧
    li.refresh.path = li.path ∧ li.refresh.tx = li.tx ∧
    li.refresh.index = li.index ∧ li.refresh.witness = li.witness ∧
    li.refresh.redeem = li.redeem ∧ li.refresh.type = li.type ∧
    li.refresh.publicKey = li.publicKey :=
  ⟨rfl, rfl, rfl, rfl, rfl, rfl, rfl, rfl, rfl, rfl, rfl, rfl⟩

/-- C4: whatever the driver, primitives and inputs do — return or throw —
`signTransaction` leaves the signing lock released, so a later call can
acquire it. -/
theorem c4_lock_released (O : Oracle) (C : Collab) (net : Network)
    (tx : MTXrep) (inputs : List LedgerTXInput) (app : AppState) :
    ((signTransaction O C net tx inputs app).2.1).locked = false := rfl

/-- C9: when `_signTransaction` throws after entry, the `finally` block
releases the lock but never resets `signingTX`: the failed call leaves the
flag raised (it is cleared only on the successful completion path). -/
theorem c9_signingTX_left_raised {O : Oracle} {C : Collab} {net : Network}
    {tx : MTXrep} {inputs : List LedgerTXInput} {app : AppState} {e : Err}
    {app' : AppState} {w : List Event}
    (h : signTransaction O C net tx inputs app = (.error e, app', w)) :
    app'.signingTX = true ∧ app'.locked = false := by
  have key : signTransaction O C net tx inputs app =
      ((_signTransactionM O C net inputs
          { tx := tx, signingTX := app.signingTX }).1,
       { signingTX := (_signTransactionM O C net inputs
          { tx := tx, signingTX := app.signingTX }).2.1.signingTX,
         locked := false },
       (_signTransactionM O C net inputs
          { tx := tx, signingTX := app.signingTX }).2.2) := rfl
  rw [key] at h
  rcases hrun : _signTransactionM O C net inputs
      { tx := tx, signingTX := app.signingTX } with ⟨r, s1, wr⟩
  rw [hrun] at h
  simp only [Prod.mk.injEq] at h
  obtain ⟨h1, h2, h3⟩ := h
  subst h2
  refine ⟨?_, rfl⟩
  subst h1
  exact _signTransactionM_err hrun

def c9trace : List Event :=
  [.getTrustedInput 100 0, .hashTransactionStartNullify (100, 0) true false,
   .hashOutputFinalize, .hashSign [44, 0, 0, 0, 0] 1]

/-- C9 witness: a driver that rejects `hashSign` makes the run fail with
the lock released and `signingTX` still raised. -/
theorem c9_witness :
    signTransaction failSignOracle okCollab 0 mtxPlain [liPlain] app0 =
      (.error "device", { signingTX := true, locked := false }, c9trace) ∧
    ({ signingTX := true, locked := false } : AppState).signingTX = true ∧
    ({ signingTX := true, locked := false } : AppState).locked = false :=
  ⟨rfl,
   (@c9_signingTX_left_raised failSignOracle okCollab 0 mtxPlain [liPlain]
      app0 "device" { signingTX := true, locked := false } c9trace rfl).1,
   (@c9_signingTX_left_raised failSignOracle okCollab 0 mtxPlain [liPlain]
      app0 "device" { signingTX := true, locked := false } c9trace rfl).2⟩

def c2tx : MTXrep :=
  { inputs := [{ prevout := (100, 0), script := [[], [2, 2]], witness := [] }],
    outputs := [{ script := [106] }] }

def c2trace : List Event :=
  [.getTrustedInput 100 0, .hashTransactionStartNullify (100, 0) true false,
   .hashOutputFinalize, .hashSign [44, 0, 0, 0, 0] 1]

/-- C2 counterexample: against primitives whose `signVector` refuses every
fold, a `signTransaction` run that did reach signing (the trace ends with
`hashSign`) still completes with `.ok`, returning the transaction with the
input's script-sig left at its templated, unsigned stack — the fold failure
is silently skipped, refuting the claim that the whole call fails. -/
theorem c2_counterexample :
    signTransaction okOracle refuseCollab 0 mtxPlain [liPlain] app0 =
      (.ok c2tx, { signingTX := false, locked := false }, c2trace) ∧
    (∀ p st sg rg, refuseCollab.signVector p st sg rg = none) ∧
    Event.hashSign [44, 0, 0, 0, 0] 1 ∈ c2trace :=
  ⟨rfl, fun _ _ _ _ => rfl, by simp [c2trace]⟩

/-- C2 amended: a refused fold is not an error: `signInput` returns `false`
without raising, and `_signTransaction` discards that boolean (lines
188-194 call `signInput` without checking its result), so the run continues
and can complete normally with the input skipped. -/
theorem c2_fold_refusal_returns_false {O : Oracle} {C : Collab}
    {net : Network} {tr : TIMap} {li : LedgerTXInput} {index? : Option Nat}
    {isNew : Bool} {s : St} {b : Bool} {s' : St} {w : List Event}
    (hsv : ∀ p st sg rg, C.signVector p st sg rg = none)
    (h : signInputM O C net tr li index? isNew s = (.ok b, s', w)) :
    b = false :=
  signInputM_refuse hsv h

def c2siState : St :=
  { tx := c2tx, signingTX := true }

def c2siTrace : List Event :=
  [.hashTransactionStartNullify (100, 0) true false, .hashOutputFinalize,
   .hashSign [44, 0, 0, 0, 0] 1]

/-- C2 witness: a concrete `signInput` run whose fold is refused completes
with `.ok false`. -/
theorem c2_witness :
    (∀ p st sg rg, refuseCollab.signVector p st sg rg = none) ∧
    signInputM okOracle refuseCollab 0 [((100, 0), [9, 9])] liPlain (some 0)
      true { tx := mtxPlain, signingTX := true } =
      (.ok false, c2siState, c2siTrace) ∧
    false = false :=
  ⟨fun _ _ _ _ => rfl, rfl,
   @c2_fold_refusal_returns_false okOracle refuseCollab 0
     [((100, 0), [9, 9])] liPlain (some 0) true
     { tx := mtxPlain, signingTX := true } false c2siState c2siTrace
     (fun _ _ _ _ => rfl) rfl⟩

/-- C5: a completed `signTransaction` run performs the shared priming pass
(`hashTransactionStart` immediately followed by `hashOutputFinalize`)
exactly once and before any per-input pass when some descriptor is a
witness input, and never performs it when no descriptor is. -/
theorem c5_shared_priming_once {O : Oracle} {C : Collab} {net : Network}
    {tx : MTXrep} {inputs : List LedgerTXInput} {app : AppState}
    {tx' : MTXrep} {app' : AppState} {w : List Event}
    (h : signTransaction O C net tx inputs app = (.ok tx', app', w)) :
    ∃ l, w.filter primingView =
      (if inputs.any (·.witness) then
        [Event.hashTransactionStart true true, Event.hashOutputFinalize]
       else []) ++ l ∧
      ∀ e ∈ l, isStartEv e = false := by
  have key : signTransaction O C net tx inputs app =
      ((_signTransactionM O C net inputs
          { tx := tx, signingTX := app.signingTX }).1,
       { signingTX := (_signTransactionM O C net inputs
          { tx := tx, signingTX := app.signingTX }).2.1.signingTX,
         locked := false },
       (_signTransactionM O C net inputs
          { tx := tx, signingTX := app.signingTX }).2.2) := rfl
  rw [key] at h
  rcases hrun : _signTransactionM O C net inputs
      { tx := tx, signingTX := app.signingTX } with ⟨r, s1, wr⟩
  rw [hrun] at h
  simp only [Prod.mk.injEq] at h
  obtain ⟨h1, h2, h3⟩ := h
  subst h1 h3
  obtain ⟨s0, sA, sB, sD, inputs1, m, hw, wf, wc, wl,
    hfill, hcol, hloop, hwEq⟩ := _signTransactionM_ok hrun
  subst hwEq
  obtain ⟨-, hpub, hforall⟩ := fillPublicKeys_run O C inputs _ _ _ _ hfill
  have hf2all := hforall inputs1 rfl
  obtain ⟨-, -, hok⟩ := collectTrusted_run O inputs1 _ _ _ _ _ _ hcol
  obtain ⟨-, hhw, -, -⟩ := hok (m, hw) rfl
  have hany : inputs1.any (·.witness) = inputs.any (·.witness) :=
    pubFill_any hf2all
  have hf1 : wf.filter primingView = [] := by
    rw [List.filter_eq_nil_iff]
    intro e he
    simp [primingView_of_pub (hpub e he)]
  have hfc : wc.filter primingView = [] := by
    rw [List.filter_eq_nil_iff]
    intro e he
    obtain ⟨-, htrust, -⟩ := collectTrusted_run O inputs1 _ _ _ _ _ _ hcol
    simp [primingView_of_trusted (htrust e he)]
  have hfp : (if hw then [Event.hashTransactionStart true true,
      Event.hashOutputFinalize] else []).filter primingView =
      (if hw then [Event.hashTransactionStart true true,
      Event.hashOutputFinalize] else []) := by
    cases hw <;> rfl
  refine ⟨wl.filter primingView, ?_, ?_⟩
  · simp only [List.filter_append, hf1, hfc, hfp, List.nil_append]
    have hcond : hw = inputs.any (·.witness) := by
      simpa [hany] using hhw
    rw [hcond]
  · intro e he
    have hm := List.mem_filter.1 he
    have := signLoop_emitsLoop O C net m (idxMapOf sB.tx) (!hw) inputs1
      sB _ _ _ hloop e hm.1
    exact this.2.2

def mtxWit : MTXrep :=
  { inputs := [{ prevout := (200, 0), script := [], witness := [] }],
    outputs := [{ script := [106] }] }

def c5tx : MTXrep :=
  { inputs := [{ prevout := (200, 0), script := [[], [2, 2]],
                 witness := [[48, 7, 1], [3, 1, 2]] }],
    outputs := [{ script := [106] }] }

def c5trace : List Event :=
  [.hashTransactionStart true true, .hashOutputFinalize,
   .hashTransactionStartSegwit (200, 0), .hashSign [44, 0, 0, 0, 1] 1]

/-- C5 witness: a witness-only transaction primes the shared pass exactly
once, before the per-input segwit pass. -/
theorem c5_witness :
    signTransaction okOracle okCollab 0 mtxWit [liWit] app0 =
      (.ok c5tx, { signingTX := false, locked := false }, c5trace) ∧
    (∃ l, c5trace.filter primingView =
      (if ([liWit] : List LedgerTXInput).any (·.witness) then
        [Event.hashTransactionStart true true, Event.hashOutputFinalize]
       else []) ++ l ∧
      ∀ e ∈ l, isStartEv e = false) :=
  ⟨rfl,
   @c5_shared_priming_once okOracle okCollab 0 mtxWit [liWit] app0 c5tx
     { signingTX := false, locked := false } c5trace rfl⟩

/-- C6: in a completed `signTransaction` run the trusted-input calls are
exactly one per descriptor that is neither a witness input nor carries an
explicit redeem script, in descriptor order (witness or redeem descriptors
never trigger one); and the trusted-input loop caches every fetched token
under the descriptor's outpoint key. -/
theorem c6_trusted_inputs :
    (∀ (O : Oracle) (C : Collab) (net : Network) (tx : MTXrep)
       (inputs : List LedgerTXInput) (app : AppState) (tx' : MTXrep)
       (app' : AppState) (w : List Event),
      signTransaction O C net tx inputs app = (.ok tx', app', w) →
      w.filter isTrustedEv =
        (inputs.filter fun li => !li.witness && li.redeem.isNone).map
          (fun li => Event.getTrustedInput li.tx.hash li.index)) ∧
    (∀ (O : Oracle) (lis : List LedgerTXInput) (m0 : TIMap) (hw0 : Bool)
       (s : St) (p : TIMap × Bool) (s' : St) (w : List Event),
      collectTrusted O m0 hw0 lis s = (.ok p, s', w) →
      ∀ li ∈ lis, li.witness = false → li.redeem = none →
        (lookupKey p.1 li.toKeyVal).isSome = true) := by
  constructor
  · intro O C net tx inputs app tx' app' w h
    have key : signTransaction O C net tx inputs app =
        ((_signTransactionM O C net inputs
            { tx := tx, signingTX := app.signingTX }).1,
         { signingTX := (_signTransactionM O C net inputs
            { tx := tx, signingTX := app.signingTX }).2.1.signingTX,
           locked := false },
         (_signTransactionM O C net inputs
            { tx := tx, signingTX := app.signingTX }).2.2) := rfl
    rw [key] at h
    rcases hrun : _signTransactionM O C net inputs
        { tx := tx, signingTX := app.signingTX } with ⟨r, s1, wr⟩
    rw [hrun] at h
    simp only [Prod.mk.injEq] at h
    obtain ⟨h1, h2, h3⟩ := h
    subst h1 h3
    obtain ⟨s0, sA, sB, sD, inputs1, m, hw, wf, wc, wl,
      hfill, hcol, hloop, hwEq⟩ := _signTransactionM_ok hrun
    subst hwEq
    obtain ⟨-, hpub, hforall⟩ := fillPublicKeys_run O C inputs _ _ _ _ hfill
    have hf2all := hforall inputs1 rfl
    obtain ⟨-, htrust, hok⟩ := collectTrusted_run O inputs1 _ _ _ _ _ _ hcol
    obtain ⟨htr, -, -, -⟩ := hok (m, hw) rfl
    have hfw : wf.filter isTrustedEv = [] := by
      rw [List.filter_eq_nil_iff]
      intro e he
      simp [trusted_of_pub (hpub e he)]
    have hfc : wc.filter isTrustedEv = wc := List.filter_eq_self.mpr htrust
    have hfp : (if hw then [Event.hashTransactionStart true true,
        Event.hashOutputFinalize] else []).filter isTrustedEv = [] := by
      cases hw <;> rfl
    have hfl : wl.filter isTrustedEv = [] := by
      rw [List.filter_eq_nil_iff]
      intro e he
      have := signLoop_emitsLoop O C net m (idxMapOf sB.tx) (!hw) inputs1
        sB _ _ _ hloop e he
      simp [this.2.1]
    simp only [List.filter_append, hfw, hfc, hfp, hfl, List.nil_append,
      List.append_nil]
    rw [htr]
    exact pubFill_trustedList hf2all
  · intro O lis m0 hw0 s p s' w h li hli hwit hred
    obtain ⟨-, -, hok⟩ := collectTrusted_run O lis m0 hw0 s _ _ _ h
    obtain ⟨-, -, -, hcov⟩ := hok p rfl
    exact hcov li hli hwit hred

def c6tx : MTXrep :=
  { inputs := [{ prevout := (100, 0), script := [[48, 7, 1], [3, 1, 2]],
                 witness := [] }],
    outputs := [{ script := [106] }] }

def c6trace : List Event :=
  [.getTrustedInput 100 0, .hashTransactionStartNullify (100, 0) true false,
   .hashOutputFinalize, .hashSign [44, 0, 0, 0, 0] 1]

def c6state : St := { tx := mtxPlain, signingTX := true }

/-- C6 witness: the plain single-input run issues exactly one trusted-input
call, and the collect loop caches its token under the outpoint key. -/
theorem c6_witness :
    signTransaction okOracle okCollab 0 mtxPlain [liPlain] app0 =
      (.ok c6tx, { signingTX := false, locked := false }, c6trace) ∧
    c6trace.filter isTrustedEv =
      (([liPlain] : List LedgerTXInput).filter
        fun li => !li.witness && li.redeem.isNone).map
        (fun li => Event.getTrustedInput li.tx.hash li.index) ∧
    collectTrusted okOracle [] false [liPlain] c6state =
      (.ok ([((100, 0), [9, 9])], false), c6state,
        [Event.getTrustedInput 100 0]) ∧
    (lookupKey ([((100, 0), [9, 9])] : TIMap) liPlain.toKeyVal).isSome =
      true :=
  ⟨rfl,
   c6_trusted_inputs.1 okOracle okCollab 0 mtxPlain [liPlain] app0 c6tx
     { signingTX := false, locked := false } c6trace rfl,
   rfl,
   c6_trusted_inputs.2 okOracle [liPlain] [] false c6state
     ([((100, 0), [9, 9])], false) c6state [Event.getTrustedInput 100 0]
     rfl liPlain (by simp) rfl rfl⟩

def c3tx : MTXrep :=
  { inputs := [{ prevout := (100, 0), script := [[48, 7, 1], [3, 1, 2]],
                 witness := [] },
               { prevout := (200, 0), script := [[], [2, 2]],
                 witness := [[48, 7, 1], [3, 1, 2]] }],
    outputs := [{ script := [106] }] }

def c3trace : List Event :=
  [.getTrustedInput 100 0, .hashTransactionStart true true,
   .hashOutputFinalize, .hashTransactionStartSegwit (200, 0),
   .hashSign [44, 0, 0, 0, 1] 1,
   .hashTransactionStartNullify (100, 0) false false,
   .hashOutputFinalize, .hashSign [44, 0, 0, 0, 0] 1]

/-- C3 counterexample: a transaction mixing a witness and a non-witness
descriptor signs successfully, yet the (first and only)
`hashTransactionStartNullify` call of the run carries
`firstRound = false` — refuting the claim that the first nullify call is
passed `firstRound = true` "including when the transaction also contains
witness inputs" (the shared priming pass took the first round instead). -/
theorem c3_counterexample :
    signTransaction okOracle okCollab 0 mtxMixed [liWit, liPlain] app0 =
      (.ok c3tx, { signingTX := false, locked := false }, c3trace) ∧
    liPlain.witness = false ∧
    nullifyRounds c3trace = [false] :=
  ⟨rfl, rfl, rfl⟩

/-- C3 amended: in a completed `signTransaction` run, at most one
`hashTransactionStartNullify` call carries `firstRound = true` and only the
first such call can; when some descriptor is a witness input every nullify
call carries `firstRound = false` (the shared priming pass is the first
round); when none is and the first per-input device pass of the run is a
nullify pass, that call carries `firstRound = true`. -/
theorem c3_first_round_flags {O : Oracle} {C : Collab} {net : Network}
    {tx : MTXrep} {inputs : List LedgerTXInput} {app : AppState}
    {tx' : MTXrep} {app' : AppState} {w : List Event}
    (h : signTransaction O C net tx inputs app = (.ok tx', app', w)) :
    (inputs.any (·.witness) = true → ∀ fr ∈ nullifyRounds w, fr = false) ∧
    (∀ fr ∈ (nullifyRounds w).tail, fr = false) ∧
    (inputs.any (·.witness) = false →
      ∀ k fr wit l, w.filter isPassEv =
        Event.hashTransactionStartNullify k fr wit :: l → fr = true) := by
  have key : signTransaction O C net tx inputs app =
      ((_signTransactionM O C net inputs
          { tx := tx, signingTX := app.signingTX }).1,
       { signingTX := (_signTransactionM O C net inputs
          { tx := tx, signingTX := app.signingTX }).2.1.signingTX,
         locked := false },
       (_signTransactionM O C net inputs
          { tx := tx, signingTX := app.signingTX }).2.2) := rfl
  rw [key] at h
  rcases hrun : _signTransactionM O C net inputs
      { tx := tx, signingTX := app.signingTX } with ⟨r, s1, wr⟩
  rw [hrun] at h
  simp only [Prod.mk.injEq] at h
  obtain ⟨h1, h2, h3⟩ := h
  subst h1 h3
  obtain ⟨s0, sA, sB, sD, inputs1, m, hw, wf, wc, wl,
    hfill, hcol, hloop, hwEq⟩ := _signTransactionM_ok hrun
  subst hwEq
  obtain ⟨-, hpub, hforall⟩ := fillPublicKeys_run O C inputs _ _ _ _ hfill
  have hf2all := hforall inputs1 rfl
  obtain ⟨-, htrust, hok⟩ := collectTrusted_run O inputs1 _ _ _ _ _ _ hcol
  obtain ⟨-, hhw, -, -⟩ := hok (m, hw) rfl
  have hany : inputs1.any (·.witness) = inputs.any (·.witness) :=
    pubFill_any hf2all
  have hcond : hw = inputs.any (·.witness) := by
    simpa [hany] using hhw
  have hfwn : nullifyRounds wf = [] :=
    nullifyRounds_eq_nil fun e he => isPass_of_pub (hpub e he)
  have hfcn : nullifyRounds wc = [] :=
    nullifyRounds_eq_nil fun e he => isPass_of_trusted (htrust e he)
  have hfpn : nullifyRounds (if hw then
      [Event.hashTransactionStart true true, Event.hashOutputFinalize]
      else []) = [] := by
    cases hw <;> rfl
  have hnrw : nullifyRounds (wf ++ wc ++ (if hw then
      [Event.hashTransactionStart true true, Event.hashOutputFinalize]
      else []) ++ wl) = nullifyRounds wl := by
    simp [nullifyRounds_append, hfwn, hfcn, hfpn]
  refine ⟨?_, ?_, ?_⟩
  · intro hWit fr hfr
    rw [hnrw] at hfr
    have hhwt : hw = true := by rw [hcond, hWit]
    subst hhwt
    exact nullifyRounds_all_false
      (fun e he => signLoop_emits_false O C net m (idxMapOf sB.tx) inputs1
        sB _ _ _ hloop e he) fr hfr
  · rw [hnrw]
    rcases signLoop_okTrace hloop with hwl | ⟨li, wh, wt, rfl, hforms, hwtf⟩
    · rw [hwl]
      simp [nullifyRounds]
    · rw [nullifyRounds_append]
      have hwtF : ∀ fr ∈ nullifyRounds wt, fr = false :=
        nullifyRounds_all_false hwtf
      rcases hforms with rfl | rfl
      · intro fr hfr
        have hcomp : nullifyRounds
            [Event.hashTransactionStartNullify li.toKeyVal (!hw) false,
             Event.hashOutputFinalize,
             Event.hashSign li.path li.type] = [!hw] := rfl
        rw [hcomp] at hfr
        simp only [List.singleton_append, List.tail_cons] at hfr
        exact hwtF fr hfr
      · intro fr hfr
        have hcomp : nullifyRounds
            [Event.hashTransactionStartSegwit li.toKeyVal,
             Event.hashSign li.path li.type] = [] := rfl
        rw [hcomp] at hfr
        simp only [List.nil_append] at hfr
        exact hwtF fr (List.mem_of_mem_tail hfr)
  · intro hNoWit k fr wit l hfilter
    have hhwf : hw = false := by rw [hcond, hNoWit]
    subst hhwf
    have hfw2 : wf.filter isPassEv = [] :=
      filter_isPass_eq_nil fun e he => isPass_of_pub (hpub e he)
    have hfc2 : wc.filter isPassEv = [] :=
      filter_isPass_eq_nil fun e he => isPass_of_trusted (htrust e he)
    simp only [List.filter_append, hfw2, hfc2, if_false, List.filter_nil,
      List.nil_append, Bool.false_eq_true] at hfilter
    rcases signLoop_okTrace hloop with hwl | ⟨li, wh, wt, rfl, hforms, hwtf⟩
    · rw [hwl] at hfilter
      simp at hfilter
    · rw [List.filter_append] at hfilter
      rcases hforms with rfl | rfl
      · have hcomp : List.filter isPassEv
            [Event.hashTransactionStartNullify li.toKeyVal (!false) false,
             Event.hashOutputFinalize,
             Event.hashSign li.path li.type] =
            [Event.hashTransactionStartNullify li.toKeyVal true false] := rfl
        rw [hcomp] at hfilter
        simp only [List.singleton_append] at hfilter
        injection hfilter with hhead htail
        injection hhead with e1 e2 e3
        exact e2.symm
      · have hcomp : List.filter isPassEv
            [Event.hashTransactionStartSegwit li.toKeyVal,
             Event.hashSign li.path li.type] =
            [Event.hashTransactionStartSegwit li.toKeyVal] := rfl
        rw [hcomp] at hfilter
        simp only [List.singleton_append] at hfilter
        injection hfilter with hhead htail
        injection hhead

/-- C3 witness: the mixed run satisfies the amended claim — every nullify
call of the run carries `firstRound = false` because a witness descriptor
is present. -/
theorem c3_witness :
    signTransaction okOracle okCollab 0 mtxMixed [liWit, liPlain] app0 =
      (.ok c3tx, { signingTX := false, locked := false }, c3trace) ∧
    (∀ fr ∈ nullifyRounds c3trace, fr = false) :=
  ⟨rfl,
   (@c3_first_round_flags okOracle okCollab 0 mtxMixed [liWit, liPlain]
      app0 c3tx { signingTX := false, locked := false } c3trace rfl).1
     rfl⟩

theorem setVecs_get {t : MTXrep} {idx : Nat} {sv wv : Stack} {inp : TXInput}
    (h : t.inputs.get? idx = some inp) :
    (setVecs t idx sv wv).inputs.get? idx =
      some { inp with script := sv, witness := wv } := by
  unfold setVecs
  rw [h]
  simp only [List.get?_eq_getElem?] at h ⊢
  simp [List.getElem?_set_self', h]

theorem readVec_writeVec {t : MTXrep} {idx : Nat} {b : Bool} {st : Stack}
    {inp : TXInput} (h : t.inputs.get? idx = some inp) :
    readVec (writeVec t idx b st) idx b = st := by
  unfold writeVec readVec
  rw [h]
  simp only [List.get?_eq_getElem?] at h ⊢
  cases b <;> simp [List.getElem?_set_self', h]

theorem map_unit_some {α : Type} {o : Option α} {u : Unit}
    (h : o.map (fun _ => ()) = some u) : ∃ a, o = some a := by
  cases o with
  | none => simp at h
  | some a => exact ⟨a, rfl⟩

/-- What a `signInput` run that returns `true` did: it resolved the ring,
found and templated the input, classified it, obtained a signature and
wrote the folded stack (with the popped redeem item re-appended in the
redeem case) back to the classified vector. -/
theorem signInputM_ok_true_run {O : Oracle} {C : Collab} {net : Network}
    {tr : TIMap} {li : LedgerTXInput} {idx : Nat} {isNew : Bool} {s : St}
    {s' : St} {w : List Event}
    (h : signInputM O C net tr li (some idx) isNew s = (.ok true, s', w)) :
    ∃ ring inp sv wv cl result,
      li.getRingE net = .ok ring ∧
      s.tx.inputs.get? idx = some inp ∧
      C.scriptInput s.tx idx li.getCoinVal ring = some (sv, wv) ∧
      classifyInput li.getCoinVal.script sv wv = .ok cl ∧
      readVec s'.tx idx cl.vecWit =
        (if cl.redeem then
          result ++ [(if cl.vecWit then wv else sv).getLast?.getD []]
         else result) := by
  unfold signInputM at h
  obtain ⟨ring, t1, w1, v1, h1, hc1, rfl⟩ := M.bind_eq_ok h
  obtain ⟨hre1, rfl, rfl⟩ := M.liftExcept_run h1
  obtain ⟨idx1, t2, w2, v2, h2, hc2, rfl⟩ := M.bind_eq_ok hc1
  obtain ⟨hidx, rfl, rfl⟩ := M.liftOption_run h2
  obtain rfl : idx = idx1 := by
    injection hidx
  obtain ⟨tx0, t3, w3, v3, h3, hc3, rfl⟩ := M.bind_eq_ok hc2
  obtain ⟨htx0, rfl, rfl⟩ := M.getTx_run h3
  obtain rfl : tx0 = _ := by
    injection htx0
  obtain ⟨u1, t4, w4, v4, h4, hc4, rfl⟩ := M.bind_eq_ok hc3
  obtain ⟨hinr, rfl, rfl⟩ := M.liftOption_run h4
  obtain ⟨inp, hinp⟩ := map_unit_some hinr
  obtain ⟨svwv, t5, w5, v5, h5, hc5, rfl⟩ := M.bind_eq_ok hc4
  obtain ⟨hsv, rfl, rfl⟩ := M.liftOption_run h5
  obtain ⟨u2, t6, w6, v6, h6, hc6, rfl⟩ := M.bind_eq_ok hc5
  obtain ⟨-, rfl, rfl⟩ := M.setTx_run h6
  obtain ⟨cl, t7, w7, v7, h7, hc7, rfl⟩ := M.bind_eq_ok hc6
  obtain ⟨hcl, rfl, rfl⟩ := M.liftExcept_run h7
  obtain ⟨u3, t8, w8, v8, h8, hc8, rfl⟩ := M.bind_eq_ok hc7
  have ht8 := passDevCalls_stPres O tr li isNew cl _ _ _ _ _ h8
  subst ht8
  obtain ⟨sig, t9, w9, v9, h9, hc9, rfl⟩ := M.bind_eq_ok hc8
  obtain ⟨-, rfl, rfl⟩ := M.devCall_run h9
  obtain ⟨result, hres, hstx, -⟩ := foldResult_ok_true hc9
  refine ⟨ring, inp, svwv.1, svwv.2, cl, result, hre1, hinp, ?_, hcl, ?_⟩
  · rw [← hsv]
  · rw [hstx]
    have hget := @setVecs_get _ _ svwv.1 svwv.2 _ hinp
    rw [readVec_writeVec hget]

/-- C7: for an input classified into the redeem case (P2SH or
witness-P2SH) whose fold succeeds, the stack written back to the input's
script-sig or witness vector carries the redeem script as its trailing
element — byte-for-byte the item popped from the templated stack before
signing. -/
theorem c7_redeem_script_trailing {O : Oracle} {C : Collab} {net : Network}
    {tr : TIMap} {li : LedgerTXInput} {idx : Nat} {isNew : Bool} {s : St}
    {ring : KeyRing} {sv wv : Stack} {cl : Classified} {s' : St}
    {w : List Event}
    (hring : li.getRingE net = .ok ring)
    (hscr : C.scriptInput s.tx idx li.getCoinVal ring = some (sv, wv))
    (hcl : classifyInput li.getCoinVal.script sv wv = .ok cl)
    (hred : cl.redeem = true)
    (h : signInputM O C net tr li (some idx) isNew s = (.ok true, s', w)) :
    (readVec s'.tx idx cl.vecWit).getLast? = some cl.prev ∧
    (if cl.vecWit then wv else sv).getLast? = some cl.prev := by
  have htrail := classifyInput_redeem hcl hred
  refine ⟨?_, htrail⟩
  obtain ⟨ring2, inp, sv2, wv2, cl2, result, hring2, hinp2, hscr2, hcl2,
    hvec⟩ := signInputM_ok_true_run h
  have hr : ring = ring2 := by
    rw [hring] at hring2
    injection hring2
  rw [← hr] at hscr2
  rw [hscr] at hscr2
  injection hscr2 with hpair
  injection hpair with hsv hwv
  rw [← hsv, ← hwv] at hcl2
  rw [hcl] at hcl2
  injection hcl2 with hclv
  rw [← hclv] at hvec
  rw [← hsv, ← hwv] at hvec
  rw [hvec, if_pos hred, List.getLast?_concat, htrail]
  rfl

def ringP2SH : KeyRing :=
  { publicKey := pk0, script := some redeemBytes, witness := false,
    network := 0 }

def c7cl : Classified :=
  { prev := redeemBytes, vecWit := false, redeem := true, witness := false }

def c7state : St := { tx := mtxP2SH, signingTX := true }

def c7txOut : MTXrep :=
  { inputs := [{ prevout := (300, 0),
                 script := [[48, 7, 1], [3, 1, 2], [81, 81]],
                 witness := [] }],
    outputs := [{ script := [106] }] }

def c7stateOut : St := { tx := c7txOut, signingTX := true }

def c7trace : List Event :=
  [.hashTransactionStartNullify (300, 0) true false, .hashOutputFinalize,
   .hashSign [44, 0, 0, 0, 2] 1]

/-- C7 witness: a concrete P2SH input with an explicit redeem script is
signed and its final script-sig stack ends with the redeem script bytes. -/
theorem c7_witness :
    signInputM okOracle okCollab 0 [] liP2SH (some 0) true c7state =
      (.ok true, c7stateOut, c7trace) ∧
    (readVec c7stateOut.tx 0 c7cl.vecWit).getLast? = some c7cl.prev :=
  ⟨rfl,
   (@c7_redeem_script_trailing okOracle okCollab 0 [] liP2SH 0 true c7state
      ringP2SH [[0], redeemBytes] [] c7cl c7stateOut c7trace
      rfl rfl rfl rfl rfl).1⟩
